import Mathlib

set_option maxRecDepth 100000

/-
  Verification of the AI content-generation layer of the Skill-Tree repository:
  the functions `generateLessons` (src/utils/generateLessons.js),
  `generateLessonChallenge` (src/utils/generateLessonChallenge.js),
  `evaluateAnswer` (src/utils/evaluateAnswer.js) and the empty-answer guard of
  `handleCompleteChallenge` (src/components/LessonPage.jsx).

  Modelling conventions (shallow embedding):
  * JavaScript strings are `List Char`.
  * The remote completion call is an explicit input `remote : Option (List Char)`;
    `none` models a thrown fetch / body error, and `some raw` models a response
    whose envelope extraction (`data.choices?.[0]?.message?.content || ""`)
    yielded the text `raw` (an unexpected envelope yields `some ""`).
  * JavaScript JSON values are the mutual inductives `JSON` / `JArr` / `JObj`.
    `JSON.parse` is modelled on the integer-numeral fragment of JSON (fraction,
    exponent and leading-zero numerals are outside the model) by a fuel-indexed
    recursive-descent routine `parseValue`; `JSON.stringify` by `jsonStringify`.
  * A JavaScript number is modelled as `Option Int`; `none` models NaN, which
    `Math.min` / `Math.max` propagate.  Only the integer fragment of the JS
    numeric coercions is modelled.
  * Exceptions thrown inside the `try` blocks are modelled by `Except Unit`;
    each orchestrator catches them and takes its fallback path, so the
    caller-facing functions are total by construction, mirroring the fact that
    in the source all throwing steps sit inside `try { ... } catch`.
-/

/-- The opening brace character, written via its escape code. -/
def lbrace : Char := '\x7b'

def rbrace : Char := '\x7d'

def isWsChar (c : Char) : Bool :=
  c = ' ' || c = '\t' || c = '\n' || c = '\r'

def skipWs : List Char → List Char
  | [] => []
  | c :: t => if isWsChar c then skipWs t else c :: t

def isDigitChar (c : Char) : Bool :=
  48 ≤ c.toNat && c.toNat ≤ 57

def digitVal (c : Char) : Nat := c.toNat - 48

def digitsToNat (ds : List Char) : Nat :=
  ds.foldl (fun a c => a * 10 + digitVal c) 0

def digitChar : Nat → Char
  | 0 => '0'
  | 1 => '1'
  | 2 => '2'
  | 3 => '3'
  | 4 => '4'
  | 5 => '5'
  | 6 => '6'
  | 7 => '7'
  | 8 => '8'
  | _ => '9'

def natToDigitsFuel : Nat → Nat → List Char
  | 0, _ => []
  | fuel + 1, n =>
    if n < 10 then [digitChar n]
    else natToDigitsFuel fuel (n / 10) ++ [digitChar (n % 10)]

def natToDigits (n : Nat) : List Char := natToDigitsFuel (n + 1) n

def intStringify (n : Int) : List Char :=
  if n < 0 then '-' :: natToDigits n.natAbs else natToDigits n.toNat

def hexDigitChar : Nat → Char
  | 0 => '0'
  | 1 => '1'
  | 2 => '2'
  | 3 => '3'
  | 4 => '4'
  | 5 => '5'
  | 6 => '6'
  | 7 => '7'
  | 8 => '8'
  | 9 => '9'
  | 10 => 'a'
  | 11 => 'b'
  | 12 => 'c'
  | 13 => 'd'
  | 14 => 'e'
  | _ => 'f'

def parseHexDigit (c : Char) : Option Nat :=
  if isDigitChar c then some (digitVal c)
  else if c = 'a' || c = 'A' then some 10
  else if c = 'b' || c = 'B' then some 11
  else if c = 'c' || c = 'C' then some 12
  else if c = 'd' || c = 'D' then some 13
  else if c = 'e' || c = 'E' then some 14
  else if c = 'f' || c = 'F' then some 15
  else none

def escCharMap (e : Char) : Option Char :=
  if e = '"' then some '"'
  else if e = '\\' then some '\\'
  else if e = '/' then some '/'
  else if e = 'b' then some (Char.ofNat 8)
  else if e = 'f' then some (Char.ofNat 12)
  else if e = 'n' then some '\n'
  else if e = 'r' then some '\r'
  else if e = 't' then some '\t'
  else none

mutual
/-- Reads the body of a JSON string literal, assuming the opening quote has
already been consumed; returns the decoded characters and the remainder after
the closing quote.  Models the string part of `JSON.parse`. -/
def parseStringBody : List Char → Option (List Char × List Char)
  | [] => none
  | c :: t =>
    if c = '"' then some ([], t)
    else if c = '\\' then parseEscape t
    else if c.toNat < 32 then none
    else
      match parseStringBody t with
      | some (s, r) => some (c :: s, r)
      | none => none

/-- Handles the character after a backslash inside a JSON string literal. -/
def parseEscape : List Char → Option (List Char × List Char)
  | [] => none
  | e :: t2 =>
    if e = 'u' then parseHexEsc1 t2
    else
      match escCharMap e with
      | some ec =>
        match parseStringBody t2 with
        | some (s, r) => some (ec :: s, r)
        | none => none
      | none => none

/-- First of the four hex digits of a `\uXXXX` escape. -/
def parseHexEsc1 : List Char → Option (List Char × List Char)
  | [] => none
  | h :: r =>
    match parseHexDigit h with
    | some a => parseHexEsc2 a r
    | none => none

def parseHexEsc2 (acc : Nat) : List Char → Option (List Char × List Char)
  | [] => none
  | h :: r =>
    match parseHexDigit h with
    | some b => parseHexEsc3 (acc * 16 + b) r
    | none => none

def parseHexEsc3 (acc : Nat) : List Char → Option (List Char × List Char)
  | [] => none
  | h :: r =>
    match parseHexDigit h with
    | some c => parseHexEsc4 (acc * 16 + c) r
    | none => none

def parseHexEsc4 (acc : Nat) : List Char → Option (List Char × List Char)
  | [] => none
  | h :: r =>
    match parseHexDigit h with
    | some d =>
      match parseStringBody r with
      | some (s, rr) => some (Char.ofNat (acc * 16 + d) :: s, rr)
      | none => none
    | none => none
end

mutual
inductive JSON where
  | null : JSON
  | bool : Bool → JSON
  | num : Int → JSON
  | str : List Char → JSON
  | arr : JArr → JSON
  | obj : JObj → JSON

inductive JArr where
  | nil : JArr
  | cons : JSON → JArr → JArr

inductive JObj where
  | nil : JObj
  | cons : List Char → JSON → JObj → JObj
end

/-- JSON string-literal serialization of one character, as `JSON.stringify`
performs it: short escapes for quote, backslash and the common control
characters, `\u00XX` for the remaining control characters. -/
def escapeChar (c : Char) : List Char :=
  if c = '"' then ['\\', '"']
  else if c = '\\' then ['\\', '\\']
  else if c = Char.ofNat 8 then ['\\', 'b']
  else if c = '\t' then ['\\', 't']
  else if c = '\n' then ['\\', 'n']
  else if c = Char.ofNat 12 then ['\\', 'f']
  else if c = '\r' then ['\\', 'r']
  else if c.toNat < 32 then
    '\\' :: 'u' :: '0' :: '0' :: [hexDigitChar (c.toNat / 16), hexDigitChar (c.toNat % 16)]
  else [c]

def escapeStr (s : List Char) : List Char := List.flatten (List.map escapeChar s)

mutual
/-- Models `JSON.stringify` (default formatting: no inserted whitespace). -/
def jsonStringify : JSON → List Char
  | .null => "null".toList
  | .bool b => if b then "true".toList else "false".toList
  | .num n => intStringify n
  | .str s => '"' :: (escapeStr s ++ ['"'])
  | .arr a => '[' :: (stringifyElems a ++ [']'])
  | .obj o => lbrace :: (stringifyMembers o ++ [rbrace])

def stringifyElems : JArr → List Char
  | .nil => []
  | .cons v .nil => jsonStringify v
  | .cons v vs => jsonStringify v ++ ',' :: stringifyElems vs

def stringifyMembers : JObj → List Char
  | .nil => []
  | .cons k v .nil => '"' :: (escapeStr k ++ '"' :: ':' :: jsonStringify v)
  | .cons k v ms =>
    ('"' :: (escapeStr k ++ '"' :: ':' :: jsonStringify v)) ++ ',' :: stringifyMembers ms
end

mutual
/-- Fuel bound needed by `parseValue` to consume a serialized value. -/
def jsonMeasure : JSON → Nat
  | .arr a => 1 + elemsMeasure a
  | .obj o => 1 + membersMeasure o
  | _ => 1

def elemsMeasure : JArr → Nat
  | .nil => 0
  | .cons v vs => 1 + jsonMeasure v + elemsMeasure vs

def membersMeasure : JObj → Nat
  | .nil => 0
  | .cons _ v ms => 1 + jsonMeasure v + membersMeasure ms
end

def spanDigits : List Char → List Char × List Char
  | [] => ([], [])
  | c :: t =>
    if isDigitChar c then
      let p := spanDigits t
      (c :: p.1, p.2)
    else ([], c :: t)

/-- Recognizes the tail of the literal `null` after its leading `n`. -/
def parseNullTail : List Char → Option (JSON × List Char)
  | 'u' :: 'l' :: 'l' :: r => some (.null, r)
  | _ => none

def parseTrueTail : List Char → Option (JSON × List Char)
  | 'r' :: 'u' :: 'e' :: r => some (.bool true, r)
  | _ => none

def parseFalseTail : List Char → Option (JSON × List Char)
  | 'a' :: 'l' :: 's' :: 'e' :: r => some (.bool false, r)
  | _ => none

/-- A remainder is safe to follow a serialized numeral: it does not start
with a digit (so the maximal-munch numeral scan stops exactly at its end). -/
def restOk : List Char → Bool
  | [] => true
  | c :: _ => !(isDigitChar c)

mutual
/-- Recursive-descent model of `JSON.parse` on the integer-numeral fragment;
returns the parsed value and the unconsumed remainder. -/
def parseValue : Nat → List Char → Option (JSON × List Char)
  | 0, _ => none
  | fuel + 1, s =>
    match skipWs s with
    | [] => none
    | c :: t =>
      if c = lbrace then
        match skipWs t with
        | [] => none
        | c2 :: r2 =>
          if c2 = rbrace then some (.obj .nil, r2)
          else
            match parseMembers fuel t with
            | some (ms, r) => some (.obj ms, r)
            | none => none
      else if c = '[' then
        match skipWs t with
        | [] => none
        | c2 :: r2 =>
          if c2 = ']' then some (.arr .nil, r2)
          else
            match parseElems fuel t with
            | some (es, r) => some (.arr es, r)
            | none => none
      else if c = '"' then
        match parseStringBody t with
        | some (s2, r) => some (.str s2, r)
        | none => none
      else if c = '-' then
        match spanDigits t with
        | ([], _) => none
        | (ds, r) => some (.num (-(digitsToNat ds : Int)), r)
      else if isDigitChar c then
        match spanDigits t with
        | (ds, r) => some (.num ((digitsToNat (c :: ds) : Nat) : Int), r)
      else if c = 'n' then parseNullTail t
      else if c = 't' then parseTrueTail t
      else if c = 'f' then parseFalseTail t
      else none

def parseElems : Nat → List Char → Option (JArr × List Char)
  | 0, _ => none
  | fuel + 1, s =>
    match parseValue fuel s with
    | none => none
    | some (v, r) =>
      match skipWs r with
      | [] => none
      | c2 :: r2 =>
        if c2 = ',' then
          match parseElems fuel r2 with
          | some (vs, rr) => some (.cons v vs, rr)
          | none => none
        else if c2 = ']' then some (.cons v .nil, r2)
        else none

def parseMembers : Nat → List Char → Option (JObj × List Char)
  | 0, _ => none
  | fuel + 1, s =>
    match skipWs s with
    | '"' :: t =>
      match parseStringBody t with
      | some (k, r) =>
        match skipWs r with
        | ':' :: r2 =>
          match parseValue fuel r2 with
          | some (v, r3) =>
            match skipWs r3 with
            | [] => none
            | c4 :: r4 =>
              if c4 = ',' then
                match parseMembers fuel r4 with
                | some (ms, rr) => some (.cons k v ms, rr)
                | none => none
              else if c4 = rbrace then some (.cons k v .nil, r4)
              else none
          | none => none
        | _ => none
      | none => none
    | _ => none
end

/-- Models `JSON.parse`: whole-input parse, trailing whitespace allowed.  Two
fuel units per input character always suffice, since every two nested calls
consume at least one character. -/
def jsonParse (s : List Char) : Option JSON :=
  match parseValue (2 * s.length + 2) s with
  | some (v, r) => if skipWs r = [] then some v else none
  | none => none

def firstIdx? : List Char → Char → Option Nat
  | [], _ => none
  | a :: t, c =>
    if a = c then some 0
    else
      match firstIdx? t c with
      | some i => some (i + 1)
      | none => none

def lastIdx? : List Char → Char → Option Nat
  | [], _ => none
  | a :: t, c =>
    match lastIdx? t c with
    | some i => some (i + 1)
    | none => if a = c then some 0 else none

/-- Models `String.prototype.indexOf` for a single character (`-1` if absent). -/
def jsIndexOf (s : List Char) (c : Char) : Int :=
  match firstIdx? s c with
  | some i => (i : Int)
  | none => -1

def jsLastIndexOf (s : List Char) (c : Char) : Int :=
  match lastIdx? s c with
  | some i => (i : Int)
  | none => -1

/-- Models `String.prototype.substring`: both indices are clamped to
`[0, length]` and swapped when out of order. -/
def jsSubstring (s : List Char) (a b : Int) : List Char :=
  let n : Int := (s.length : Int)
  let a2 : Nat := (min (max a 0) n).toNat
  let b2 : Nat := (min (max b 0) n).toNat
  (s.take (max a2 b2)).drop (min a2 b2)

/-- The Structured Extractor for the lessons orchestrator
(generateLessons.js lines 98-102): slice from the first `[` to the last `]`
and `JSON.parse` the slice; `none` models the thrown `ParseError`. -/
def jsonExtractArray (raw : List Char) : Option JSON :=
  jsonParse (jsSubstring raw (jsIndexOf raw '[') (jsLastIndexOf raw ']' + 1))

/-- The Structured Extractor for the challenge and evaluation orchestrators:
slice from the first opening brace to the last closing brace, then parse. -/
def jsonExtractObject (raw : List Char) : Option JSON :=
  jsonParse (jsSubstring raw (jsIndexOf raw lbrace) (jsLastIndexOf raw rbrace + 1))

/-- JavaScript truthiness of a parsed JSON value (`undefined`/NaN cannot come
out of `JSON.parse`, so these six cases are exhaustive). -/
def jsTruthy : JSON → Bool
  | .null => false
  | .bool b => b
  | .num n => decide (n ≠ 0)
  | .str s => decide (s ≠ [])
  | .arr _ => true
  | .obj _ => true

/-- Property lookup on a parsed object: with duplicate keys the last
occurrence wins, as with `JSON.parse` in JavaScript. -/
def jObjLookup : JObj → List Char → Option JSON
  | .nil, _ => none
  | .cons k v ms, key =>
    match jObjLookup ms key with
    | some r => some r
    | none => if k = key then some v else none

/-- Models a JavaScript property access `x.key` on a parsed JSON value:
accessing a property of `null` throws (`Except.error`); on primitives and
arrays it yields `undefined` (`none`); on objects it looks the key up. -/
def jsGetProp : JSON → List Char → Except Unit (Option JSON)
  | .null, _ => .error ()
  | .obj ms, key => .ok (jObjLookup ms key)
  | _, _ => .ok none

/-- Models the `x || default` idiom applied to a possibly-undefined property:
a truthy value is kept as-is (even if it has the wrong type), anything falsy
or missing is replaced by the default. -/
def jsOr (v : Option JSON) (d : JSON) : JSON :=
  match v with
  | some x => if jsTruthy x then x else d
  | none => d

mutual
/-- Models `String(x)` for an array element inside `Array.prototype.join`
(`null` becomes the empty string there). -/
def jsElemToString : JSON → List Char
  | .null => []
  | .bool true => "true".toList
  | .bool false => "false".toList
  | .num n => intStringify n
  | .str s => s
  | .arr a => jsElemsJoin a
  | .obj _ => "[object Object]".toList

def jsElemsJoin : JArr → List Char
  | .nil => []
  | .cons v .nil => jsElemToString v
  | .cons v vs => jsElemToString v ++ ',' :: jsElemsJoin vs
end

def jsTrim (s : List Char) : List Char :=
  ((s.dropWhile isWsChar).reverse.dropWhile isWsChar).reverse

/-- Models `Number(string)` on the integer fragment: empty/whitespace is `0`,
optionally signed digit runs take their value, anything else is NaN (`none`). -/
def jsStrToNumber (s : List Char) : Option Int :=
  match jsTrim s with
  | [] => some 0
  | '-' :: ds =>
    if !ds.isEmpty && ds.all isDigitChar then some (-(digitsToNat ds : Int)) else none
  | '+' :: ds =>
    if !ds.isEmpty && ds.all isDigitChar then some ((digitsToNat ds : Nat) : Int) else none
  | ds =>
    if ds.all isDigitChar then some ((digitsToNat ds : Nat) : Int) else none

/-- Models the JavaScript `ToNumber` coercion of a parsed JSON value
(integer fragment); `none` is NaN. -/
def jsToNumber : JSON → Option Int
  | .null => some 0
  | .bool b => some (if b then 1 else 0)
  | .num n => some n
  | .str s => jsStrToNumber s
  | .arr a => jsStrToNumber (jsElemsJoin a)
  | .obj _ => none

/-- Models `Math.max(0, Math.min(100, parsed.score || 0))` from
evaluateAnswer.js line 109: `Math.min`/`Math.max` coerce their argument and
propagate NaN. -/
def jsScoreClamp (v : Option JSON) : Option Int :=
  match jsToNumber (jsOr v (.num 0)) with
  | some n => some (max 0 (min 100 n))
  | none => none

/-- Models `String.prototype.split(' ')` (single-space separator, keeping
empty fragments, `"".split(' ') = [""]`). -/
def splitOnSpace : List Char → List (List Char)
  | [] => [[]]
  | c :: t =>
    match splitOnSpace t with
    | [] => [[]]
    | w :: ws => if c = ' ' then [] :: w :: ws else (c :: w) :: ws

def listStartsWith : List Char → List Char → Bool
  | _, [] => true
  | [], _ :: _ => false
  | a :: as, b :: bs => a == b && listStartsWith as bs

/-- Models `String.prototype.includes` (substring containment). -/
def jsIncludes : List Char → List Char → Bool
  | hay, needle =>
    if listStartsWith hay needle then true
    else
      match hay with
      | [] => false
      | _ :: t => jsIncludes t needle

def toLowerStr (s : List Char) : List Char := s.map Char.toLower

def JArr.toList : JArr → List JSON
  | .nil => []
  | .cons v vs => v :: toList vs

/-- Models `Array.prototype.map` with a callback that may throw: the first
thrown exception aborts the whole map (and hence the surrounding `try`). -/
def exceptMapM (f : JSON → Except Unit α) : List JSON → Except Unit (List α)
  | [] => .ok []
  | x :: xs =>
    match f x with
    | .error e => .error e
    | .ok y =>
      match exceptMapM f xs with
      | .error e => .error e
      | .ok ys => .ok (y :: ys)

/-- One challenge of a lesson, as normalized by generateLessons.js.  Field
values are JSON values because the `x || default` idiom keeps truthy values
of any type. -/
structure LessonChallenge where
  scenario : JSON
  question : JSON
  hint : JSON

structure Lesson where
  title : JSON
  description : JSON
  relevance : JSON
  challenges : List LessonChallenge

/-- The context generateLessons reads from the user object.  `careerAnswers`
is only interpolated into the prompt (which is part of the remote input here);
the fallback path reads `careerAnswers?.industryInterests` into an unused
local, so only `skills` can influence the output. -/
structure UserCtx where
  skills : List (List Char)
  industryInterests : List (List Char)
  resumeUploaded : Bool

structure ChallengeCtx where
  lessonTitle : List Char
  skill : Option (List Char)
  industry : Option (List Char)

/-- Output shape of generateLessonChallenge. -/
structure ChallengeRec where
  scenario : JSON
  challenge : JSON
  hint : JSON

structure EvalCtx where
  userAnswer : List Char
  challenge : List Char
  scenario : List Char
  lessonTitle : List Char
  skill : Option (List Char)
  industry : Option (List Char)

/-- Output shape of evaluateAnswer; `score` is a JS number (`none` = NaN). -/
structure EvalResult where
  isCorrect : JSON
  score : Option Int
  feedback : JSON
  suggestions : JSON
  canProceed : JSON

def keyTitle : List Char := "title".toList
def keyDescription : List Char := "description".toList
def keyRelevance : List Char := "relevance".toList
def keyChallenges : List Char := "challenges".toList
def keyScenario : List Char := "scenario".toList
def keyQuestion : List Char := "question".toList
def keyChallenge : List Char := "challenge".toList
def keyHint : List Char := "hint".toList
def keyIsCorrect : List Char := "isCorrect".toList
def keyScore : List Char := "score".toList
def keyFeedback : List Char := "feedback".toList
def keySuggestions : List Char := "suggestions".toList
def keyCanProceed : List Char := "canProceed".toList

def defaultTitle : List Char := "Untitled Lesson".toList
def defaultDescription : List Char := "No description available.".toList
def defaultRelevance : List Char := "Relevant to your career growth.".toList
def defaultScenario : List Char := "A realistic scenario to practice the skill.".toList
def defaultQuestion : List Char := "Apply the skill to solve this challenge.".toList
def defaultHint : List Char := "Think critically and use best practices.".toList

/-- Normalization of one challenge object inside a lesson
(generateLessons.js lines 116-120); property access on `null` throws. -/
def normalizeLessonChallenge (c : JSON) : Except Unit LessonChallenge :=
  match jsGetProp c keyScenario with
  | .error e => .error e
  | .ok sc =>
    match jsGetProp c keyQuestion with
    | .error e => .error e
    | .ok q =>
      match jsGetProp c keyHint with
      | .error e => .error e
      | .ok h =>
        .ok { scenario := jsOr sc (.str defaultScenario),
              question := jsOr q (.str defaultQuestion),
              hint := jsOr h (.str defaultHint) }

/-- Normalization of one lesson object (generateLessons.js lines 111-122). -/
def normalizeLesson (l : JSON) : Except Unit Lesson :=
  match jsGetProp l keyTitle with
  | .error e => .error e
  | .ok t =>
    match jsGetProp l keyDescription with
    | .error e => .error e
    | .ok d =>
      match jsGetProp l keyRelevance with
      | .error e => .error e
      | .ok r =>
        match jsGetProp l keyChallenges with
        | .error e => .error e
        | .ok ch =>
          match
            (match ch with
             | some (.arr cs) => exceptMapM normalizeLessonChallenge cs.toList
             | _ => .ok []) with
          | .error e => .error e
          | .ok chs =>
            .ok { title := jsOr t (.str defaultTitle),
                  description := jsOr d (.str defaultDescription),
                  relevance := jsOr r (.str defaultRelevance),
                  challenges := chs }

def strengthenLesson (skill : List Char) : Lesson :=
  { title := .str ("Strengthen Your ".toList ++ skill ++ " Skills".toList),
    description := .str ("Deepen your knowledge and practical application of ".toList
      ++ skill ++ " in professional settings.".toList),
    relevance := .str (skill
      ++ " is a valuable skill that can be applied across many industries and roles.".toList),
    challenges :=
      [ { scenario := .str ("You are in a professional setting where you need to apply ".toList
            ++ skill ++ ". Consider the context, stakeholders, and objectives involved.".toList),
          question := .str ("Describe a real-world scenario where you would use ".toList
            ++ skill ++ " and explain your approach.".toList),
          hint := .str ("Think about practical steps, industry best practices, and how this skill creates value in professional contexts.".toList) } ] }

def universalFallbackLessons : List Lesson :=
  [ { title := .str "Effective Problem-Solving Strategies".toList,
      description := .str "Practice structured approaches to analyze and solve complex challenges in any professional setting.".toList,
      relevance := .str "Problem-solving is universally valuable across all industries and career paths.".toList,
      challenges :=
        [ { scenario := .str "You encounter a complex challenge or problem in your workplace that requires careful analysis and a strategic solution.".toList,
            question := .str "Describe your step-by-step approach to understanding, analyzing, and solving this problem.".toList,
            hint := .str "Break the problem into smaller components, identify root causes, consider multiple perspectives, and evaluate potential solutions.".toList } ] },
    { title := .str "Professional Communication and Stakeholder Management".toList,
      description := .str "Develop skills in clear communication, active listening, and managing relationships with colleagues, clients, and stakeholders.".toList,
      relevance := .str "Strong communication skills are essential for success in any field and help build trust and collaboration.".toList,
      challenges :=
        [ { scenario := .str "You need to communicate an important message to multiple stakeholders who have different perspectives, priorities, and communication styles.".toList,
            question := .str "How would you tailor your communication approach to ensure each stakeholder understands and engages with your message?".toList,
            hint := .str "Consider audience analysis, message framing, communication channels, and follow-up strategies.".toList } ] },
    { title := .str "Time Management and Prioritization".toList,
      description := .str "Learn to effectively manage your time, prioritize tasks, and balance competing demands in professional settings.".toList,
      relevance := .str "Efficient time management improves productivity and work-life balance in any career.".toList,
      challenges :=
        [ { scenario := .str "You have multiple important projects, deadlines, and responsibilities competing for your attention with limited time available.".toList,
            question := .str "How would you prioritize your tasks, manage your schedule, and ensure critical work gets completed on time?".toList,
            hint := .str "Consider urgency vs. importance, breaking down large tasks, delegation opportunities, and realistic time estimates.".toList } ] } ]

/-- The fallback generator of generateLessons.js (lines 142-201).  The
`firstIndustry` local computed there from `careerAnswers?.industryInterests`
is never used by the returned lessons, so the output depends on `skills`
alone. -/
def fallbackLessons (user : UserCtx) : List Lesson :=
  if 0 < user.skills.length then (user.skills.take 3).map strengthenLesson
  else universalFallbackLessons

/-- Orchestrator of generateLessons.js: on a successful remote call, extract,
parse and normalize; any thrown step (fetch error, `JSON.parse` failure,
`.map` on a non-array, property access on a null element) lands in the
`catch` and yields the fallback. -/
def generateLessons (user : UserCtx) (remote : Option (List Char)) : List Lesson :=
  match remote with
  | none => fallbackLessons user
  | some raw =>
    match jsonExtractArray raw with
    | none => fallbackLessons user
    | some parsed =>
      match parsed with
      | .arr items =>
        match exceptMapM normalizeLesson items.toList with
        | .ok ls => ls
        | .error _ => fallbackLessons user
      | _ => fallbackLessons user

/-- Default scenario template of generateLessonChallenge.js line 108; an
undefined `industry` is interpolated by a template literal as the text
"undefined". -/
def challengeDefaultScenario (ctx : ChallengeCtx) : List Char :=
  "Imagine a scenario applying ".toList ++ ctx.lessonTitle ++ " in ".toList
    ++ ctx.industry.getD ("undefined".toList) ++ ".".toList

def challengeDefaultChallenge (ctx : ChallengeCtx) : List Char :=
  "Apply ".toList ++ ctx.lessonTitle ++ " to solve a problem in this scenario.".toList

def challengeDefaultHint : List Char :=
  "Think about best practices and steps to solve the challenge.".toList

/-- Normalization step of generateLessonChallenge.js (lines 107-111). -/
def normalizeChallengeRec (ctx : ChallengeCtx) (parsed : JSON) : Except Unit ChallengeRec :=
  match jsGetProp parsed keyScenario with
  | .error e => .error e
  | .ok sc =>
    match jsGetProp parsed keyChallenge with
    | .error e => .error e
    | .ok ch =>
      match jsGetProp parsed keyHint with
      | .error e => .error e
      | .ok h =>
        .ok { scenario := jsOr sc (.str (challengeDefaultScenario ctx)),
              challenge := jsOr ch (.str (challengeDefaultChallenge ctx)),
              hint := jsOr h (.str challengeDefaultHint) }

/-- The `industry && industry !== "general" ? industry : "your professional
field"` selector of generateLessonChallenge.js line 131. -/
def industryContext (industry : Option (List Char)) : List Char :=
  match industry with
  | some i => if i ≠ [] ∧ i ≠ "general".toList then i else "your professional field".toList
  | none => "your professional field".toList

/-- Fallback generator of generateLessonChallenge.js (lines 131-136). -/
def fallbackChallenge (ctx : ChallengeCtx) : ChallengeRec :=
  { scenario := .str ("Imagine you are in a realistic professional setting in ".toList
      ++ industryContext ctx.industry ++ " where you need to apply ".toList
      ++ ctx.lessonTitle
      ++ ". Consider the workplace environment, colleagues or clients involved, and the potential impact of your actions.".toList),
    challenge := .str ("Describe a specific real-world situation in ".toList
      ++ industryContext ctx.industry ++ " where you would apply ".toList
      ++ ctx.lessonTitle
      ++ ". Explain your approach to addressing this situation effectively.".toList),
    hint := .str ("Think about professional best practices, key considerations specific to your field, the stakeholders involved, and practical steps that lead to successful outcomes.".toList) }

/-- Orchestrator of generateLessonChallenge.js. -/
def generateLessonChallenge (ctx : ChallengeCtx) (remote : Option (List Char)) : ChallengeRec :=
  match remote with
  | none => fallbackChallenge ctx
  | some raw =>
    match jsonExtractObject raw with
    | none => fallbackChallenge ctx
    | some parsed =>
      match normalizeChallengeRec ctx parsed with
      | .ok r => r
      | .error _ => fallbackChallenge ctx

def evalDefaultFeedback : List Char :=
  "Your answer has been received. Please review the challenge and try again.".toList

def evalDefaultSuggestions : List Char :=
  "Consider reviewing the scenario and challenge requirements.".toList

/-- Normalization step of evaluateAnswer.js (lines 107-113), including the
score clamp `Math.max(0, Math.min(100, parsed.score || 0))`. -/
def normalizeEvalResult (parsed : JSON) : Except Unit EvalResult :=
  match jsGetProp parsed keyIsCorrect with
  | .error e => .error e
  | .ok ic =>
    match jsGetProp parsed keyScore with
    | .error e => .error e
    | .ok sc =>
      match jsGetProp parsed keyFeedback with
      | .error e => .error e
      | .ok fb =>
        match jsGetProp parsed keySuggestions with
        | .error e => .error e
        | .ok sg =>
          match jsGetProp parsed keyCanProceed with
          | .error e => .error e
          | .ok cp =>
            .ok { isCorrect := jsOr ic (.bool false),
                  score := jsScoreClamp sc,
                  feedback := jsOr fb (.str evalDefaultFeedback),
                  suggestions := jsOr sg (.str evalDefaultSuggestions),
                  canProceed := jsOr cp (.bool false) }

def genericKeywords : List (List Char) :=
  ["problem", "solution", "approach", "strategy", "method", "technique",
   "analyze", "evaluate", "implement", "design", "create", "develop"].map String.toList

/-- checkForKeywords of evaluateAnswer.js (lines 154-173): keywords are the
challenge words longer than 4 characters, the skill words longer than 3
characters, and a fixed list of generic terms; at least two of them must
occur in the lowercased answer. -/
def checkForKeywords (userAnswer challenge : List Char) (skill : Option (List Char)) : Bool :=
  let answer := toLowerStr userAnswer
  let challengeText := toLowerStr challenge
  let skillText := toLowerStr (skill.getD [])
  let keywords :=
    (splitOnSpace challengeText).filter (fun w => 4 < w.length)
      ++ (splitOnSpace skillText).filter (fun w => 3 < w.length)
      ++ genericKeywords
  let keywordMatches := keywords.filter (fun k => jsIncludes answer (toLowerStr k))
  decide (2 ≤ keywordMatches.length)

def fallbackFeedbackGood : List Char :=
  "Good answer! You've demonstrated understanding of the key concepts.".toList

def fallbackFeedbackBad : List Char :=
  "Your answer needs more detail. Try to address the challenge more comprehensively.".toList

def fallbackSuggestions : List Char :=
  "Consider providing more specific examples and explaining your reasoning step by step.".toList

/-- Fallback evaluation of evaluateAnswer.js (lines 124-146): length and
keyword based scoring, correct at score ≥ 70, may proceed at score ≥ 60. -/
def fallbackEvaluate (ctx : EvalCtx) : EvalResult :=
  let answerLength := (jsTrim ctx.userAnswer).length
  let hasKeywords := checkForKeywords ctx.userAnswer ctx.challenge ctx.skill
  let score : Nat :=
    (if 50 < answerLength then 30 else 0) + (if 100 < answerLength then 20 else 0)
      + (if hasKeywords then 40 else 0) + (if 200 < answerLength then 10 else 0)
  let isCorrect : Bool := decide (70 ≤ score)
  let canProceed : Bool := decide (60 ≤ score)
  { isCorrect := .bool isCorrect,
    score := some (score : Int),
    feedback := .str (if isCorrect then fallbackFeedbackGood else fallbackFeedbackBad),
    suggestions := .str fallbackSuggestions,
    canProceed := .bool canProceed }

/-- Orchestrator of evaluateAnswer.js.  Note that it performs no validation
of `userAnswer`: the remote call is issued (and its outcome consumed) even
for an empty answer. -/
def evaluateAnswer (ctx : EvalCtx) (remote : Option (List Char)) : EvalResult :=
  match remote with
  | none => fallbackEvaluate ctx
  | some raw =>
    match jsonExtractObject raw with
    | none => fallbackEvaluate ctx
    | some parsed =>
      match normalizeEvalResult parsed with
      | .ok r => r
      | .error _ => fallbackEvaluate ctx

/-- Outcome of the answer-submission handler of LessonPage.jsx: either the
empty-answer rejection (recording the feedback message set by the guard), or
an evaluation produced by `evaluateAnswer`. -/
inductive HandleOutcome where
  | rejected : List Char → HandleOutcome
  | evaluated : EvalResult → HandleOutcome

def emptyAnswerMessage : List Char :=
  "💬 Please enter an answer before completing the challenge!".toList

/-- The input-validation guard of `handleCompleteChallenge`
(LessonPage.jsx lines 151-158): a whitespace-only answer is rejected before
`evaluateAnswer` (and hence the network call) is ever invoked. -/
def handleCompleteChallenge (answer : List Char) (ctx : EvalCtx)
    (remote : Option (List Char)) : HandleOutcome :=
  if jsTrim answer = [] then .rejected emptyAnswerMessage
  else .evaluated (evaluateAnswer { ctx with userAnswer := answer } remote)

/-- A value is a populated (non-null) field.  `undefined` cannot occur in the
normalized records because every field is built by `jsOr`, which always
returns a value. -/
def jsonNonNull (v : JSON) : Prop := v ≠ JSON.null

def lessonChallengeNoNull (c : LessonChallenge) : Prop :=
  jsonNonNull c.scenario ∧ jsonNonNull c.question ∧ jsonNonNull c.hint

def lessonNoNull (l : Lesson) : Prop :=
  jsonNonNull l.title ∧ jsonNonNull l.description ∧ jsonNonNull l.relevance ∧
    ∀ c ∈ l.challenges, lessonChallengeNoNull c

def challengeRecNoNull (r : ChallengeRec) : Prop :=
  jsonNonNull r.scenario ∧ jsonNonNull r.challenge ∧ jsonNonNull r.hint

def evalResultNoNull (r : EvalResult) : Prop :=
  jsonNonNull r.isCorrect ∧ jsonNonNull r.feedback ∧ jsonNonNull r.suggestions ∧
    jsonNonNull r.canProceed

/-- The score field holds an actual number in `[0, 100]` (so in particular it
is not NaN). -/
def scoreInRange (s : Option Int) : Prop := ∃ n, s = some n ∧ 0 ≤ n ∧ n ≤ 100

def isStrJSON : JSON → Bool
  | .str _ => true
  | _ => false

def lessonTitleContains (l : Lesson) (sub : List Char) : Bool :=
  match l.title with
  | .str s => jsIncludes s sub
  | _ => false

def nonEmptyStrJSON : JSON → Bool
  | .str s => !s.isEmpty
  | _ => false

def lessonFieldsNonEmptyStr (l : Lesson) : Bool :=
  nonEmptyStrJSON l.title && nonEmptyStrJSON l.description && nonEmptyStrJSON l.relevance

/-- Balance check for one delimiter kind: the running depth never goes
negative and ends at zero. -/
def delimBalancedAux (o c : Char) : List Char → Int → Bool
  | [], d => decide (d = 0)
  | x :: t, d =>
    if x = o then delimBalancedAux o c t (d + 1)
    else if x = c then (if d ≤ 0 then false else delimBalancedAux o c t (d - 1))
    else delimBalancedAux o c t d

def delimBalanced (o c : Char) (s : List Char) : Bool := delimBalancedAux o c s 0

def ctxEmptySkills : UserCtx := ⟨[], [], false⟩

def ctxExcel : UserCtx := ⟨["Excel".toList], [], false⟩

def rawScenarioE : List Char :=
  ("Here are your lessons: [\x7b\"title\":\"A\",\"description\":\"da\",\"relevance\":\"ra\"\x7d,"
    ++ "\x7b\"title\":\"B\",\"description\":\"db\"\x7d,"
    ++ "\x7b\"title\":\"C\",\"description\":\"dc\",\"relevance\":\"rc\"\x7d] Enjoy!").toList

def lessonsScenarioE : List Lesson :=
  [ ⟨.str ("A".toList), .str ("da".toList), .str ("ra".toList), []⟩,
    ⟨.str ("B".toList), .str ("db".toList), .str defaultRelevance, []⟩,
    ⟨.str ("C".toList), .str ("dc".toList), .str ("rc".toList), []⟩ ]

def rawWrongTypeTitle : List Char :=
  "x [\x7b\"title\":5,\"description\":\"d\",\"relevance\":\"r\"\x7d]".toList

def lessonWrongTypeTitle : Lesson :=
  ⟨.num 5, .str ("d".toList), .str ("r".toList), []⟩

def evalCtxA : EvalCtx := ⟨[], [], [], [], none, none⟩

def rawScoreHigh : List Char :=
  "\x7b\"isCorrect\":true,\"score\":\"high\",\"feedback\":\"f\",\"suggestions\":\"s\",\"canProceed\":true\x7d".toList

def rawScore85 : List Char :=
  "\x7b\"isCorrect\":true,\"score\":85,\"feedback\":\"ok\",\"suggestions\":\"none\",\"canProceed\":true\x7d".toList

def answer210 : List Char := "problem solution ".toList ++ List.replicate 193 'a'

def evalCtx210 : EvalCtx := ⟨answer210, [], [], [], none, none⟩

def arrOne : JSON := .arr (.cons (.num 1) .nil)

def balancedProse : List Char := "[] ".toList

def rawNoJson : List Char := "no structured content".toList

def rawNoJson2 : List Char := "still nothing here".toList

def rawEmptyArr : List Char := "Sure! [] done".toList

def arrTwo : JArr := .cons (.num 2) .nil

def objScore : JObj := .cons ("score".toList) (.num 7) .nil

def chCtxA : ChallengeCtx := ⟨"Time Management".toList, none, none⟩

def msNoRelevance : JObj := .cons keyTitle (.str ("T".toList)) .nil

def lessonNoRelevance : Lesson :=
  ⟨.str ("T".toList), .str defaultDescription, .str defaultRelevance, []⟩

def topicsList : List (List Char) :=
  ["Problem-Solving".toList, "Communication".toList, "Time Management".toList]

/- ===================== Theorems ===================== -/

theorem jsOr_ne_null (v : Option JSON) (d : JSON) (hd : d ≠ JSON.null) :
    jsOr v d ≠ JSON.null := by
  cases v with
  | none => exact hd
  | some x =>
    simp only [jsOr]
    split
    · next htr =>
      intro h
      subst h
      simp [jsTruthy] at htr
    · exact hd

theorem exceptMapM_ok_mem {α : Type} {f : JSON → Except Unit α} :
    ∀ {xs : List JSON} {ys : List α}, exceptMapM f xs = .ok ys →
      ∀ y ∈ ys, ∃ x, f x = .ok y := by
  intro xs
  induction xs with
  | nil =>
    intro ys h y hy
    simp only [exceptMapM, Except.ok.injEq] at h
    subst h
    simp at hy
  | cons x xs ih =>
    intro ys h y hy
    simp only [exceptMapM] at h
    cases hfx : f x with
    | error e => rw [hfx] at h; exact Except.noConfusion h
    | ok yx =>
      rw [hfx] at h
      cases hm : exceptMapM f xs with
      | error e => rw [hm] at h; exact Except.noConfusion h
      | ok ys2 =>
        rw [hm] at h
        simp only [Except.ok.injEq] at h
        subst h
        rcases List.mem_cons.1 hy with rfl | hy2
        · exact ⟨x, hfx⟩
        · exact ih hm y hy2

theorem normalizeLessonChallenge_ok {j : JSON} {c : LessonChallenge}
    (h : normalizeLessonChallenge j = .ok c) : lessonChallengeNoNull c := by
  unfold normalizeLessonChallenge at h
  cases h1 : jsGetProp j keyScenario with
  | error e => simp only [h1] at h; exact Except.noConfusion h
  | ok sc =>
    simp only [h1] at h
    cases h2 : jsGetProp j keyQuestion with
    | error e => simp only [h2] at h; exact Except.noConfusion h
    | ok q =>
      simp only [h2] at h
      cases h3 : jsGetProp j keyHint with
      | error e => simp only [h3] at h; exact Except.noConfusion h
      | ok hh =>
        simp only [h3, Except.ok.injEq] at h
        subst h
        exact ⟨jsOr_ne_null _ _ (by simp), jsOr_ne_null _ _ (by simp),
          jsOr_ne_null _ _ (by simp)⟩

theorem lessonChallengesPart_ok {ch : Option JSON} {chs : List LessonChallenge}
    (h : (match ch with
          | some (.arr cs) => exceptMapM normalizeLessonChallenge cs.toList
          | _ => Except.ok []) = .ok chs) :
    ∀ c ∈ chs, lessonChallengeNoNull c := by
  intro c hc
  rcases ch with _ | v
  · simp only [Except.ok.injEq] at h; subst h; simp at hc
  · cases v with
    | arr a =>
      obtain ⟨x, hx⟩ := exceptMapM_ok_mem h c hc
      exact normalizeLessonChallenge_ok hx
    | null => simp only [Except.ok.injEq] at h; subst h; simp at hc
    | bool b => simp only [Except.ok.injEq] at h; subst h; simp at hc
    | num n => simp only [Except.ok.injEq] at h; subst h; simp at hc
    | str s => simp only [Except.ok.injEq] at h; subst h; simp at hc
    | obj o => simp only [Except.ok.injEq] at h; subst h; simp at hc

theorem normalizeLesson_ok {j : JSON} {l : Lesson}
    (h : normalizeLesson j = .ok l) : lessonNoNull l := by
  unfold normalizeLesson at h
  cases h1 : jsGetProp j keyTitle with
  | error e => simp only [h1] at h; exact Except.noConfusion h
  | ok t =>
    simp only [h1] at h
    cases h2 : jsGetProp j keyDescription with
    | error e => simp only [h2] at h; exact Except.noConfusion h
    | ok d =>
      simp only [h2] at h
      cases h3 : jsGetProp j keyRelevance with
      | error e => simp only [h3] at h; exact Except.noConfusion h
      | ok r =>
        simp only [h3] at h
        cases h4 : jsGetProp j keyChallenges with
        | error e => simp only [h4] at h; exact Except.noConfusion h
        | ok ch =>
          simp only [h4] at h
          cases h5 : (match ch with
            | some (.arr cs) => exceptMapM normalizeLessonChallenge cs.toList
            | _ => Except.ok []) with
          | error e => simp only [h5] at h; exact Except.noConfusion h
          | ok chs =>
            simp only [h5, Except.ok.injEq] at h
            subst h
            exact ⟨jsOr_ne_null _ _ (by simp), jsOr_ne_null _ _ (by simp),
              jsOr_ne_null _ _ (by simp), lessonChallengesPart_ok h5⟩

theorem strengthenLesson_noNull (s : List Char) : lessonNoNull (strengthenLesson s) := by
  refine ⟨by simp [strengthenLesson, jsonNonNull], by simp [strengthenLesson, jsonNonNull],
    by simp [strengthenLesson, jsonNonNull], ?_⟩
  intro c hc
  simp only [strengthenLesson, List.mem_singleton] at hc
  subst hc
  exact ⟨by simp [jsonNonNull], by simp [jsonNonNull], by simp [jsonNonNull]⟩

theorem fallbackLessons_noNull (u : UserCtx) : ∀ l ∈ fallbackLessons u, lessonNoNull l := by
  intro l hl
  unfold fallbackLessons at hl
  split at hl
  · rcases List.mem_map.1 hl with ⟨s, _, rfl⟩
    exact strengthenLesson_noNull s
  · fin_cases hl <;>
      exact ⟨by simp [jsonNonNull], by simp [jsonNonNull], by simp [jsonNonNull],
        by intro c hc; fin_cases hc <;>
          exact ⟨by simp [jsonNonNull], by simp [jsonNonNull], by simp [jsonNonNull]⟩⟩

theorem fallbackChallenge_noNull (c : ChallengeCtx) :
    challengeRecNoNull (fallbackChallenge c) :=
  ⟨by simp [fallbackChallenge, jsonNonNull], by simp [fallbackChallenge, jsonNonNull],
    by simp [fallbackChallenge, jsonNonNull]⟩

theorem normalizeChallengeRec_ok {c : ChallengeCtx} {j : JSON} {r : ChallengeRec}
    (h : normalizeChallengeRec c j = .ok r) : challengeRecNoNull r := by
  unfold normalizeChallengeRec at h
  cases h1 : jsGetProp j keyScenario with
  | error e => simp only [h1] at h; exact Except.noConfusion h
  | ok sc =>
    simp only [h1] at h
    cases h2 : jsGetProp j keyChallenge with
    | error e => simp only [h2] at h; exact Except.noConfusion h
    | ok ch =>
      simp only [h2] at h
      cases h3 : jsGetProp j keyHint with
      | error e => simp only [h3] at h; exact Except.noConfusion h
      | ok hh =>
        simp only [h3, Except.ok.injEq] at h
        subst h
        exact ⟨jsOr_ne_null _ _ (by simp), jsOr_ne_null _ _ (by simp),
          jsOr_ne_null _ _ (by simp)⟩

theorem fallbackEvaluate_noNull (e : EvalCtx) : evalResultNoNull (fallbackEvaluate e) :=
  ⟨by simp [fallbackEvaluate, jsonNonNull], by simp [fallbackEvaluate, jsonNonNull],
    by simp [fallbackEvaluate, jsonNonNull], by simp [fallbackEvaluate, jsonNonNull]⟩

theorem normalizeEvalResult_ok {j : JSON} {r : EvalResult}
    (h : normalizeEvalResult j = .ok r) : evalResultNoNull r := by
  unfold normalizeEvalResult at h
  cases h1 : jsGetProp j keyIsCorrect with
  | error e => simp only [h1] at h; exact Except.noConfusion h
  | ok ic =>
    simp only [h1] at h
    cases h2 : jsGetProp j keyScore with
    | error e => simp only [h2] at h; exact Except.noConfusion h
    | ok sc =>
      simp only [h2] at h
      cases h3 : jsGetProp j keyFeedback with
      | error e => simp only [h3] at h; exact Except.noConfusion h
      | ok fb =>
        simp only [h3] at h
        cases h4 : jsGetProp j keySuggestions with
        | error e => simp only [h4] at h; exact Except.noConfusion h
        | ok sg =>
          simp only [h4] at h
          cases h5 : jsGetProp j keyCanProceed with
          | error e => simp only [h5] at h; exact Except.noConfusion h
          | ok cp =>
            simp only [h5, Except.ok.injEq] at h
            subst h
            exact ⟨jsOr_ne_null _ _ (by simp), jsOr_ne_null _ _ (by simp),
              jsOr_ne_null _ _ (by simp), jsOr_ne_null _ _ (by simp)⟩

/-- Claim C1: for every context and every remote outcome (failure, or success
with any returned text), the three caller-facing functions return a value of
the full output shape whose fields are never null/undefined; totality (never
throwing) holds by construction of the embedding, every throwing step of the
source being confined to the `try` blocks that the orchestrators catch. -/
theorem generate_functions_total_no_null_fields :
    (∀ (u : UserCtx) (remote : Option (List Char)),
        ∀ l ∈ generateLessons u remote, lessonNoNull l) ∧
      (∀ (c : ChallengeCtx) (remote : Option (List Char)),
        challengeRecNoNull (generateLessonChallenge c remote)) ∧
      (∀ (e : EvalCtx) (remote : Option (List Char)),
        evalResultNoNull (evaluateAnswer e remote)) := by
  refine ⟨?_, ?_, ?_⟩
  · intro u remote l hl
    match remote with
    | none => exact fallbackLessons_noNull u l hl
    | some raw =>
      simp only [generateLessons] at hl
      cases hx : jsonExtractArray raw with
      | none => simp only [hx] at hl; exact fallbackLessons_noNull u l hl
      | some parsed =>
        simp only [hx] at hl
        cases parsed with
        | arr items =>
          cases hm : exceptMapM normalizeLesson items.toList with
          | ok ls =>
            simp only [hm] at hl
            obtain ⟨x, hxok⟩ := exceptMapM_ok_mem hm l hl
            exact normalizeLesson_ok hxok
          | error e => simp only [hm] at hl; exact fallbackLessons_noNull u l hl
        | null => exact fallbackLessons_noNull u l hl
        | bool b => exact fallbackLessons_noNull u l hl
        | num n => exact fallbackLessons_noNull u l hl
        | str s => exact fallbackLessons_noNull u l hl
        | obj o => exact fallbackLessons_noNull u l hl
  · intro c remote
    match remote with
    | none => exact fallbackChallenge_noNull c
    | some raw =>
      simp only [generateLessonChallenge]
      cases hx : jsonExtractObject raw with
      | none => simp only [hx]; exact fallbackChallenge_noNull c
      | some parsed =>
        simp only [hx]
        cases hn : normalizeChallengeRec c parsed with
        | ok r => simp only [hn]; exact normalizeChallengeRec_ok hn
        | error e => simp only [hn]; exact fallbackChallenge_noNull c
  · intro e remote
    match remote with
    | none => exact fallbackEvaluate_noNull e
    | some raw =>
      simp only [evaluateAnswer]
      cases hx : jsonExtractObject raw with
      | none => simp only [hx]; exact fallbackEvaluate_noNull e
      | some parsed =>
        simp only [hx]
        cases hn : normalizeEvalResult parsed with
        | ok r => simp only [hn]; exact normalizeEvalResult_ok hn
        | error e2 => simp only [hn]; exact fallbackEvaluate_noNull e

theorem generate_functions_total_no_null_fields_witness :
    lessonNoNull (strengthenLesson ("Excel".toList)) ∧
      challengeRecNoNull (generateLessonChallenge chCtxA none) ∧
      evalResultNoNull (evaluateAnswer evalCtxA none) :=
  ⟨generate_functions_total_no_null_fields.1 ctxExcel none (strengthenLesson ("Excel".toList))
      (List.mem_singleton.mpr rfl),
    generate_functions_total_no_null_fields.2.1 chCtxA none,
    generate_functions_total_no_null_fields.2.2 evalCtxA none⟩

/-- Claim C2: in the fallback path of evaluateAnswer the score is the sum of
the fixed components (+30 for trimmed length > 50, +20 for > 100, +10 for
> 200, +40 for at least two keyword matches), `isCorrect` holds iff the score
is at least 70 and `canProceed` iff it is at least 60; in particular a
210-character answer with two keyword matches scores at least 70 and may
proceed. -/
theorem fallback_evaluation_score_components :
    ∀ ctx : EvalCtx,
      ∃ s : Nat,
        (evaluateAnswer ctx none).score = some (s : Int) ∧
        s = (if 50 < (jsTrim ctx.userAnswer).length then 30 else 0)
          + (if 100 < (jsTrim ctx.userAnswer).length then 20 else 0)
          + (if 200 < (jsTrim ctx.userAnswer).length then 10 else 0)
          + (if checkForKeywords ctx.userAnswer ctx.challenge ctx.skill then 40 else 0) ∧
        (evaluateAnswer ctx none).isCorrect = .bool (decide (70 ≤ s)) ∧
        (evaluateAnswer ctx none).canProceed = .bool (decide (60 ≤ s)) ∧
        ((jsTrim ctx.userAnswer).length = 210 →
          checkForKeywords ctx.userAnswer ctx.challenge ctx.skill = true →
          70 ≤ s ∧ (evaluateAnswer ctx none).canProceed = .bool true) := by
  intro ctx
  refine ⟨(if 50 < (jsTrim ctx.userAnswer).length then 30 else 0)
    + (if 100 < (jsTrim ctx.userAnswer).length then 20 else 0)
    + (if checkForKeywords ctx.userAnswer ctx.challenge ctx.skill then 40 else 0)
    + (if 200 < (jsTrim ctx.userAnswer).length then 10 else 0), rfl, ?_, rfl, rfl, ?_⟩
  · by_cases h1 : 50 < (jsTrim ctx.userAnswer).length <;>
      by_cases h2 : 100 < (jsTrim ctx.userAnswer).length <;>
      by_cases h3 : 200 < (jsTrim ctx.userAnswer).length <;>
      by_cases hk : checkForKeywords ctx.userAnswer ctx.challenge ctx.skill = true <;>
      simp [h1, h2, h3, hk]
  · intro h210 hkw
    constructor
    · rw [h210, hkw]
      norm_num
    · show JSON.bool _ = JSON.bool true
      rw [h210, hkw]
      norm_num

theorem fallback_evaluation_score_components_witness :
    (evaluateAnswer evalCtx210 none).canProceed = .bool true ∧
      ∃ s : Nat, (evaluateAnswer evalCtx210 none).score = some (s : Int) ∧ 70 ≤ s := by
  obtain ⟨s, hs, _, _, _, h5⟩ := fallback_evaluation_score_components evalCtx210
  obtain ⟨h70, hcp⟩ := h5 (by decide) (by decide)
  exact ⟨hcp, s, hs, h70⟩

/-- Claim C4 counterexample: `evaluateAnswer` itself does not reject an empty
`userAnswer` before the network call: it consumes the remote outcome and
returns a normal evaluation result that depends on it (fallback score 0 on
failure, the parsed score 85 on this successful response). -/
theorem evaluateAnswer_empty_answer_not_rejected :
    (evaluateAnswer evalCtxA none).score = some 0 ∧
      (evaluateAnswer evalCtxA (some rawScore85)).score = some 85 ∧
      evaluateAnswer evalCtxA none ≠ evaluateAnswer evalCtxA (some rawScore85) := by
  refine ⟨rfl, rfl, ?_⟩
  intro h
  have hs := congrArg EvalResult.score h
  rw [show (evaluateAnswer evalCtxA none).score = some 0 from rfl,
    show (evaluateAnswer evalCtxA (some rawScore85)).score = some 85 from rfl] at hs
  exact absurd hs (by decide)

/-- Claim C4 (amended): the empty-answer rejection lives in the caller: for
every context and every remote outcome, `handleCompleteChallenge` with an
empty answer returns the validation message without invoking `evaluateAnswer`
(its result does not depend on the remote outcome), and the message is a
non-empty request for input. -/
theorem empty_answer_rejected_in_caller :
    ∀ (ctx : EvalCtx) (remote : Option (List Char)),
      handleCompleteChallenge [] ctx remote = .rejected emptyAnswerMessage ∧
        emptyAnswerMessage ≠ [] := by
  intro ctx remote
  exact ⟨rfl, by decide⟩

/-- Claim C5 counterexample: a wrong-typed but truthy field is NOT replaced
by a human-readable default: a numeric `title` survives normalization as the
number 5, not as a default string. -/
theorem wrong_type_truthy_field_preserved :
    generateLessons ctxEmptySkills (some rawWrongTypeTitle) = [lessonWrongTypeTitle] ∧
      isStrJSON lessonWrongTypeTitle.title = false ∧
      lessonWrongTypeTitle.title ≠ .str defaultTitle := by
  refine ⟨rfl, rfl, ?_⟩
  intro h
  exact JSON.noConfusion h

/-- Claim C5 (amended): with an embedded array of 3 lesson objects of which
exactly one lacks `relevance`, generateLessons returns all 3 entries, the
missing `relevance` defaulted to a non-empty string and all other fields
preserved exactly; in general the normalizer substitutes the default for an
absent or falsy field and keeps any truthy value (even of the wrong type)
unchanged. -/
theorem missing_relevance_defaulted_truthy_preserved :
    (∀ u : UserCtx, generateLessons u (some rawScenarioE) = lessonsScenarioE) ∧
      defaultRelevance ≠ [] ∧
      (∀ (ms : JObj) (l : Lesson), normalizeLesson (.obj ms) = .ok l →
        (jObjLookup ms keyRelevance = none → l.relevance = .str defaultRelevance) ∧
        (∀ x, jObjLookup ms keyRelevance = some x → jsTruthy x = true →
          l.relevance = x)) := by
  refine ⟨fun u => rfl, by decide, ?_⟩
  intro ms l h
  unfold normalizeLesson at h
  simp only [jsGetProp] at h
  cases h5 : (match jObjLookup ms keyChallenges with
    | some (.arr cs) => exceptMapM normalizeLessonChallenge cs.toList
    | _ => Except.ok []) with
  | error e => simp only [h5] at h; exact Except.noConfusion h
  | ok chs =>
    simp only [h5, Except.ok.injEq] at h
    subst h
    constructor
    · intro hnone
      simp only [hnone, jsOr]
    · intro x hx htr
      simp only [hx, jsOr, htr, if_pos]

theorem missing_relevance_defaulted_truthy_preserved_witness :
    generateLessons ctxExcel (some rawScenarioE) = lessonsScenarioE ∧
      lessonNoRelevance.relevance = .str defaultRelevance :=
  ⟨missing_relevance_defaulted_truthy_preserved.1 ctxExcel,
    (missing_relevance_defaulted_truthy_preserved.2.2 msNoRelevance lessonNoRelevance rfl).1 rfl⟩

/-- Claim C6 counterexample: a model response whose score field is the string
"high" (truthy but not numeric) makes the clamp evaluate to NaN, so the
returned score is NOT a number in the interval [0, 100]. -/
theorem nonnumeric_score_yields_nan :
    (evaluateAnswer evalCtxA (some rawScoreHigh)).score = none ∧
      ¬ scoreInRange ((evaluateAnswer evalCtxA (some rawScoreHigh)).score) := by
  refine ⟨rfl, ?_⟩
  rintro ⟨n, hn, -⟩
  rw [show (evaluateAnswer evalCtxA (some rawScoreHigh)).score = none from rfl] at hn
  exact Option.noConfusion hn

theorem fallbackEvaluate_score_in_range (ctx : EvalCtx) :
    scoreInRange ((fallbackEvaluate ctx).score) := by
  have h1 : (if 50 < (jsTrim ctx.userAnswer).length then 30 else 0) ≤ 30 := by
    split <;> omega
  have h2 : (if 100 < (jsTrim ctx.userAnswer).length then 20 else 0) ≤ 20 := by
    split <;> omega
  have h3 : (if checkForKeywords ctx.userAnswer ctx.challenge ctx.skill then 40 else 0) ≤ 40 := by
    split <;> omega
  have h4 : (if 200 < (jsTrim ctx.userAnswer).length then 10 else 0) ≤ 10 := by
    split <;> omega
  refine ⟨_, rfl, ?_, ?_⟩
  · exact Int.ofNat_nonneg _
  · exact_mod_cast Nat.le_of_lt_succ (by omega)

theorem jsScoreClamp_none_or_range (v : Option JSON) :
    jsScoreClamp v = none ∨ scoreInRange (jsScoreClamp v) := by
  unfold jsScoreClamp
  cases h : jsToNumber (jsOr v (.num 0)) with
  | none => exact Or.inl rfl
  | some n =>
    refine Or.inr ⟨max 0 (min 100 n), rfl, le_max_left 0 _, ?_⟩
    exact max_le (by norm_num) (min_le_left 100 n)

theorem normalizeEvalResult_score {j : JSON} {r : EvalResult}
    (h : normalizeEvalResult j = .ok r) : ∃ sc, r.score = jsScoreClamp sc := by
  unfold normalizeEvalResult at h
  cases h1 : jsGetProp j keyIsCorrect with
  | error e => simp only [h1] at h; exact Except.noConfusion h
  | ok ic =>
    simp only [h1] at h
    cases h2 : jsGetProp j keyScore with
    | error e => simp only [h2] at h; exact Except.noConfusion h
    | ok sc =>
      simp only [h2] at h
      cases h3 : jsGetProp j keyFeedback with
      | error e => simp only [h3] at h; exact Except.noConfusion h
      | ok fb =>
        simp only [h3] at h
        cases h4 : jsGetProp j keySuggestions with
        | error e => simp only [h4] at h; exact Except.noConfusion h
        | ok sg =>
          simp only [h4] at h
          cases h5 : jsGetProp j keyCanProceed with
          | error e => simp only [h5] at h; exact Except.noConfusion h
          | ok cp =>
            simp only [h5, Except.ok.injEq] at h
            subst h
            exact ⟨sc, rfl⟩

/-- Claim C6 (amended): the fallback path always returns a score in [0, 100];
on the AI path the returned score is either NaN (when the possibly-defaulted
score field coerces to NaN, e.g. a non-numeric truthy string or an object) or
a number in [0, 100] — the clamp guarantees the interval only for values that
coerce to an actual number. -/
theorem score_clamped_or_nan :
    (∀ ctx : EvalCtx, scoreInRange ((evaluateAnswer ctx none).score)) ∧
      (∀ (ctx : EvalCtx) (remote : Option (List Char)),
        (evaluateAnswer ctx remote).score = none ∨
          scoreInRange ((evaluateAnswer ctx remote).score)) := by
  constructor
  · intro ctx
    exact fallbackEvaluate_score_in_range ctx
  · intro ctx remote
    match remote with
    | none => exact Or.inr (fallbackEvaluate_score_in_range ctx)
    | some raw =>
      simp only [evaluateAnswer]
      cases hx : jsonExtractObject raw with
      | none => simp only [hx]; exact Or.inr (fallbackEvaluate_score_in_range ctx)
      | some parsed =>
        simp only [hx]
        cases hn : normalizeEvalResult parsed with
        | error e => simp only [hn]; exact Or.inr (fallbackEvaluate_score_in_range ctx)
        | ok r =>
          simp only [hn]
          obtain ⟨sc, hsc⟩ := normalizeEvalResult_score hn
          rw [hsc]
          exact jsScoreClamp_none_or_range sc

/-- Claim C7: for the context with skills ["Excel"], empty careerAnswers and
no resume, a failing remote call yields exactly one lesson, whose title
contains the substring "Excel". -/
theorem excel_context_fallback_single_lesson :
    generateLessons ctxExcel none = [strengthenLesson ("Excel".toList)] ∧
      generateLessons ctxExcel none ≠ [] ∧
      (generateLessons ctxExcel none).length = 1 ∧
      lessonTitleContains (strengthenLesson ("Excel".toList)) ("Excel".toList) = true := by
  refine ⟨rfl, ?_, rfl, by decide⟩
  intro h
  exact List.noConfusion h

/-- Claim C8: with an empty skills list and a failing remote call,
generateLessons returns the fixed universal set of exactly 3 lessons — on
problem-solving, communication and time-management topics — each with
non-empty title, description and relevance. -/
theorem empty_skills_fallback_universal_lessons :
    ∀ u : UserCtx, u.skills = [] →
      generateLessons u none = universalFallbackLessons ∧
        universalFallbackLessons.length = 3 ∧
        universalFallbackLessons.all lessonFieldsNonEmptyStr = true ∧
        List.zipWith lessonTitleContains universalFallbackLessons topicsList
          = [true, true, true] := by
  intro u h
  refine ⟨?_, rfl, by decide, by decide⟩
  show fallbackLessons u = universalFallbackLessons
  unfold fallbackLessons
  rw [h]
  simp

theorem empty_skills_fallback_universal_lessons_witness :
    generateLessons ctxEmptySkills none = universalFallbackLessons ∧
      universalFallbackLessons.length = 3 :=
  ⟨(empty_skills_fallback_universal_lessons ctxEmptySkills rfl).1,
    (empty_skills_fallback_universal_lessons ctxEmptySkills rfl).2.1⟩

/-- Claim C9: the fallback generators are pure functions of the context: a
remote failure and any two extraction/parse failures produce the same,
structurally identical output for the same context, across all three
orchestrators, with no dependence on the remote layer. -/
theorem fallback_pure_function_of_context :
    (∀ (u : UserCtx) (r1 r2 : List Char), jsonExtractArray r1 = none →
        jsonExtractArray r2 = none →
        generateLessons u (some r1) = fallbackLessons u ∧
          generateLessons u (some r1) = generateLessons u (some r2) ∧
          generateLessons u (some r1) = generateLessons u none) ∧
      (∀ (c : ChallengeCtx) (r1 r2 : List Char), jsonExtractObject r1 = none →
        jsonExtractObject r2 = none →
        generateLessonChallenge c (some r1) = fallbackChallenge c ∧
          generateLessonChallenge c (some r1) = generateLessonChallenge c (some r2) ∧
          generateLessonChallenge c (some r1) = generateLessonChallenge c none) ∧
      (∀ (e : EvalCtx) (r1 r2 : List Char), jsonExtractObject r1 = none →
        jsonExtractObject r2 = none →
        evaluateAnswer e (some r1) = fallbackEvaluate e ∧
          evaluateAnswer e (some r1) = evaluateAnswer e (some r2) ∧
          evaluateAnswer e (some r1) = evaluateAnswer e none) := by
  refine ⟨?_, ?_, ?_⟩
  · intro u r1 r2 h1 h2
    simp [generateLessons, h1, h2]
  · intro c r1 r2 h1 h2
    simp [generateLessonChallenge, h1, h2]
  · intro e r1 r2 h1 h2
    simp [evaluateAnswer, h1, h2]

theorem fallback_pure_function_of_context_witness :
    generateLessons ctxExcel (some rawNoJson) = fallbackLessons ctxExcel ∧
      generateLessonChallenge chCtxA (some rawNoJson) = generateLessonChallenge chCtxA none ∧
      evaluateAnswer evalCtxA (some rawNoJson) = evaluateAnswer evalCtxA (some rawNoJson2) :=
  ⟨(fallback_pure_function_of_context.1 ctxExcel rawNoJson rawNoJson2 rfl rfl).1,
    (fallback_pure_function_of_context.2.1 chCtxA rawNoJson rawNoJson2 rfl rfl).2.2,
    (fallback_pure_function_of_context.2.2 evalCtxA rawNoJson rawNoJson2 rfl rfl).2.1⟩

/-- Claim C10: when the extracted remote content parses as a valid but empty
JSON array, generateLessons returns the empty list on the success path, while
the fallback path always returns a non-empty list — so non-emptiness is a
fallback guarantee only. -/
theorem empty_array_success_path_empty_result :
    (∀ (u : UserCtx) (raw : List Char), jsonExtractArray raw = some (JSON.arr .nil) →
        generateLessons u (some raw) = []) ∧
      (∀ u : UserCtx, generateLessons u none ≠ []) := by
  constructor
  · intro u raw h
    simp [generateLessons, h, exceptMapM, JArr.toList]
  · intro u
    show fallbackLessons u ≠ []
    unfold fallbackLessons
    split
    · next h =>
      rcases hs : u.skills with _ | ⟨a, t⟩
      · rw [hs] at h; simp at h
      · simp
    · simp [universalFallbackLessons]

theorem empty_array_success_path_empty_result_witness :
    generateLessons ctxExcel (some rawEmptyArr) = [] ∧
      generateLessons ctxExcel none ≠ [] :=
  ⟨empty_array_success_path_empty_result.1 ctxExcel rawEmptyArr rfl,
    empty_array_success_path_empty_result.2 ctxExcel⟩

theorem isDigitChar_digitChar (n : Nat) : isDigitChar (digitChar n) = true := by
  unfold digitChar
  split <;> decide

theorem digitVal_digitChar (n : Nat) (h : n < 10) : digitVal (digitChar n) = n := by
  interval_cases n <;> decide

theorem ws_digit_false (c : Char) (h : isDigitChar c = true) : isWsChar c = false := by
  cases hw : isWsChar c
  · rfl
  · exfalso
    simp only [isWsChar, Bool.or_eq_true, decide_eq_true_eq] at hw
    rcases hw with ((rfl | rfl) | rfl) | rfl <;> exact absurd h (by decide)

theorem digit_head_branches (c : Char) (h : isDigitChar c = true) :
    c ≠ lbrace ∧ c ≠ '[' ∧ c ≠ '"' ∧ c ≠ '-' ∧ c ≠ ']' ∧ c ≠ rbrace := by
  refine ⟨?_, ?_, ?_, ?_, ?_, ?_⟩ <;> (intro he; subst he; exact absurd h (by decide))

theorem digitsToNat_append (ds : List Char) (c : Char) :
    digitsToNat (ds ++ [c]) = 10 * digitsToNat ds + digitVal c := by
  simp only [digitsToNat, List.foldl_append, List.foldl_cons, List.foldl_nil]
  omega

theorem natToDigitsFuel_spec :
    ∀ fuel n : Nat, n < fuel →
      natToDigitsFuel fuel n ≠ [] ∧
        (∀ c ∈ natToDigitsFuel fuel n, isDigitChar c = true) ∧
        digitsToNat (natToDigitsFuel fuel n) = n := by
  intro fuel
  induction fuel with
  | zero => intro n h; omega
  | succ f ih =>
    intro n h
    by_cases h10 : n < 10
    · simp only [natToDigitsFuel, if_pos h10]
      refine ⟨by simp, ?_, ?_⟩
      · intro c hc
        simp only [List.mem_singleton] at hc
        subst hc
        exact isDigitChar_digitChar n
      · simp [digitsToNat, digitVal_digitChar n h10]
    · simp only [natToDigitsFuel, if_neg h10]
      have hq : n / 10 < f := by omega
      obtain ⟨hne, hdig, hval⟩ := ih (n / 10) hq
      refine ⟨by simp, ?_, ?_⟩
      · intro c hc
        rcases List.mem_append.1 hc with hc1 | hc2
        · exact hdig c hc1
        · simp only [List.mem_singleton] at hc2
          subst hc2
          exact isDigitChar_digitChar (n % 10)
      · rw [digitsToNat_append, hval, digitVal_digitChar _ (Nat.mod_lt n (by norm_num))]
        omega

theorem natToDigits_spec (n : Nat) :
    natToDigits n ≠ [] ∧ (∀ c ∈ natToDigits n, isDigitChar c = true) ∧
      digitsToNat (natToDigits n) = n :=
  natToDigitsFuel_spec (n + 1) n (by omega)

theorem skipWs_cons (c : Char) (t : List Char) (h : isWsChar c = false) :
    skipWs (c :: t) = c :: t := by
  simp [skipWs, h]

theorem spanDigits_append (ds r : List Char) (hds : ∀ c ∈ ds, isDigitChar c = true)
    (hr : restOk r = true) : spanDigits (ds ++ r) = (ds, r) := by
  induction ds with
  | nil =>
    simp only [List.nil_append]
    cases r with
    | nil => rfl
    | cons c t =>
      simp only [restOk, Bool.not_eq_true'] at hr
      simp [spanDigits, hr]
  | cons c ds ih =>
    have hc := hds c (by simp)
    simp only [List.cons_append, spanDigits, hc, if_pos, List.append_eq]
    rw [ih (fun x hx => hds x (by simp [hx]))]

theorem parseHexDigit_hexDigitChar (k : Nat) (h : k < 16) :
    parseHexDigit (hexDigitChar k) = some k := by
  interval_cases k <;> decide

theorem escapeStr_cons (c : Char) (cs : List Char) :
    escapeStr (c :: cs) = escapeChar c ++ escapeStr cs := by
  simp [escapeStr]


theorem psb_quote (X : List Char) : parseStringBody ('"' :: X) = some ([], X) := rfl

theorem psb_esc_quote (X : List Char) :
    parseStringBody ('\\' :: '"' :: X) =
      match parseStringBody X with
      | some (s, r) => some ('"' :: s, r)
      | none => none := rfl

theorem psb_esc_backslash (X : List Char) :
    parseStringBody ('\\' :: '\\' :: X) =
      match parseStringBody X with
      | some (s, r) => some ('\\' :: s, r)
      | none => none := rfl

theorem psb_esc_b (X : List Char) :
    parseStringBody ('\\' :: 'b' :: X) =
      match parseStringBody X with
      | some (s, r) => some (Char.ofNat 8 :: s, r)
      | none => none := rfl

theorem psb_esc_t (X : List Char) :
    parseStringBody ('\\' :: 't' :: X) =
      match parseStringBody X with
      | some (s, r) => some ('\t' :: s, r)
      | none => none := rfl

theorem psb_esc_n (X : List Char) :
    parseStringBody ('\\' :: 'n' :: X) =
      match parseStringBody X with
      | some (s, r) => some ('\n' :: s, r)
      | none => none := rfl

theorem psb_esc_f (X : List Char) :
    parseStringBody ('\\' :: 'f' :: X) =
      match parseStringBody X with
      | some (s, r) => some (Char.ofNat 12 :: s, r)
      | none => none := rfl

theorem psb_esc_r (X : List Char) :
    parseStringBody ('\\' :: 'r' :: X) =
      match parseStringBody X with
      | some (s, r) => some ('\r' :: s, r)
      | none => none := rfl

theorem psb_u (a b c d : Char) (x1 x2 x3 x4 : Nat) (X : List Char)
    (ha : parseHexDigit a = some x1) (hb : parseHexDigit b = some x2)
    (hc : parseHexDigit c = some x3) (hd : parseHexDigit d = some x4) :
    parseStringBody ('\\' :: 'u' :: a :: b :: c :: d :: X) =
      match parseStringBody X with
      | some (s, r) => some (Char.ofNat (((x1 * 16 + x2) * 16 + x3) * 16 + x4) :: s, r)
      | none => none := by
  show parseHexEsc1 (a :: b :: c :: d :: X) = _
  simp only [parseHexEsc1, ha, parseHexEsc2, hb, parseHexEsc3, hc, parseHexEsc4, hd]

theorem psb_plain (c : Char) (X : List Char) (h1 : ¬c = '"') (h2 : ¬c = '\\')
    (h3 : ¬c.toNat < 32) :
    parseStringBody (c :: X) =
      match parseStringBody X with
      | some (s, r) => some (c :: s, r)
      | none => none := by
  conv_lhs => rw [parseStringBody.eq_def]
  simp only [if_neg h1, if_neg h2, if_neg h3]

theorem parseStringBody_roundtrip :
    ∀ cs rest : List Char, parseStringBody (escapeStr cs ++ '"' :: rest) = some (cs, rest) := by
  intro cs
  induction cs with
  | nil =>
    intro rest
    rw [show escapeStr [] = [] from rfl, List.nil_append, psb_quote]
  | cons c cs ih =>
    intro rest
    rw [escapeStr_cons, List.append_assoc]
    by_cases h1 : c = '"'
    · subst h1
      rw [show escapeChar '"' = ['\\', '"'] from rfl]
      simp only [List.cons_append, List.nil_append]
      rw [psb_esc_quote, ih]
    · by_cases h2 : c = '\\'
      · subst h2
        rw [show escapeChar '\\' = ['\\', '\\'] from rfl]
        simp only [List.cons_append, List.nil_append]
        rw [psb_esc_backslash, ih]
      · by_cases h3 : c = Char.ofNat 8
        · subst h3
          rw [show escapeChar (Char.ofNat 8) = ['\\', 'b'] from rfl]
          simp only [List.cons_append, List.nil_append]
          rw [psb_esc_b, ih]
        · by_cases h4 : c = '\t'
          · subst h4
            rw [show escapeChar '\t' = ['\\', 't'] from rfl]
            simp only [List.cons_append, List.nil_append]
            rw [psb_esc_t, ih]
          · by_cases h5 : c = '\n'
            · subst h5
              rw [show escapeChar '\n' = ['\\', 'n'] from rfl]
              simp only [List.cons_append, List.nil_append]
              rw [psb_esc_n, ih]
            · by_cases h6 : c = Char.ofNat 12
              · subst h6
                rw [show escapeChar (Char.ofNat 12) = ['\\', 'f'] from rfl]
                simp only [List.cons_append, List.nil_append]
                rw [psb_esc_f, ih]
              · by_cases h7 : c = '\r'
                · subst h7
                  rw [show escapeChar '\r' = ['\\', 'r'] from rfl]
                  simp only [List.cons_append, List.nil_append]
                  rw [psb_esc_r, ih]
                · by_cases h8 : c.toNat < 32
                  · rw [show escapeChar c
                        = ['\\', 'u', '0', '0', hexDigitChar (c.toNat / 16),
                            hexDigitChar (c.toNat % 16)] from by
                      simp [escapeChar, h1, h2, h3, h4, h5, h6, h7, h8]]
                    simp only [List.cons_append, List.nil_append]
                    rw [psb_u '0' '0' (hexDigitChar (c.toNat / 16)) (hexDigitChar (c.toNat % 16))
                      0 0 (c.toNat / 16) (c.toNat % 16) _ (by decide) (by decide)
                      (parseHexDigit_hexDigitChar _ (by omega))
                      (parseHexDigit_hexDigitChar _ (by omega)), ih]
                    rw [show ((0 * 16 + 0) * 16 + c.toNat / 16) * 16 + c.toNat % 16
                          = c.toNat from by omega]
                    rw [Char.ofNat_toNat]
                  · rw [show escapeChar c = [c] from by
                      simp [escapeChar, h1, h2, h3, h4, h5, h6, h7, h8]]
                    simp only [List.cons_append, List.nil_append]
                    rw [psb_plain c _ h1 h2 h8, ih]

theorem pv_quote (f : Nat) (X : List Char) :
    parseValue (f + 1) ('"' :: X) =
      match parseStringBody X with
      | some (s2, r) => some (.str s2, r)
      | none => none := rfl

theorem pv_null (f : Nat) (X : List Char) :
    parseValue (f + 1) ('n' :: X) = parseNullTail X := rfl

theorem pv_true (f : Nat) (X : List Char) :
    parseValue (f + 1) ('t' :: X) = parseTrueTail X := rfl

theorem pv_false (f : Nat) (X : List Char) :
    parseValue (f + 1) ('f' :: X) = parseFalseTail X := rfl

theorem pv_neg (f : Nat) (X : List Char) :
    parseValue (f + 1) ('-' :: X) =
      match spanDigits X with
      | ([], _) => none
      | (ds, r) => some (.num (-(digitsToNat ds : Int)), r) := rfl

theorem pv_lbrack (f : Nat) (X : List Char) :
    parseValue (f + 1) ('[' :: X) =
      match skipWs X with
      | [] => none
      | c2 :: r2 =>
        if c2 = ']' then some (.arr .nil, r2)
        else
          match parseElems f X with
          | some (es, r) => some (.arr es, r)
          | none => none := rfl

theorem pv_lbrace (f : Nat) (X : List Char) :
    parseValue (f + 1) (lbrace :: X) =
      match skipWs X with
      | [] => none
      | c2 :: r2 =>
        if c2 = rbrace then some (.obj .nil, r2)
        else
          match parseMembers f X with
          | some (ms, r) => some (.obj ms, r)
          | none => none := rfl

theorem pv_digit (f : Nat) (c : Char) (X : List Char) (hc : isDigitChar c = true) :
    parseValue (f + 1) (c :: X) =
      match spanDigits X with
      | (ds, r) => some (.num ((digitsToNat (c :: ds) : Nat) : Int), r) := by
  obtain ⟨n1, n2, n3, n4, n5, n6⟩ := digit_head_branches c hc
  simp only [parseValue.eq_def, skipWs_cons c X (ws_digit_false c hc)]
  simp only [if_neg n1, if_neg n2, if_neg n3, if_neg n4, if_pos hc]

theorem pe_succ (f : Nat) (s : List Char) :
    parseElems (f + 1) s =
      match parseValue f s with
      | none => none
      | some (v, r) =>
        match skipWs r with
        | [] => none
        | c2 :: r2 =>
          if c2 = ',' then
            match parseElems f r2 with
            | some (vs, rr) => some (.cons v vs, rr)
            | none => none
          else if c2 = ']' then some (.cons v .nil, r2)
          else none := rfl

theorem pm_succ (f : Nat) (s : List Char) :
    parseMembers (f + 1) s =
      match skipWs s with
      | '"' :: t =>
        match parseStringBody t with
        | some (k, r) =>
          match skipWs r with
          | ':' :: r2 =>
            match parseValue f r2 with
            | some (v, r3) =>
              match skipWs r3 with
              | [] => none
              | c4 :: r4 =>
                if c4 = ',' then
                  match parseMembers f r4 with
                  | some (ms, rr) => some (.cons k v ms, rr)
                  | none => none
                else if c4 = rbrace then some (.cons k v .nil, r4)
                else none
            | none => none
          | _ => none
        | none => none
      | _ => none := rfl

theorem jsonMeasure_pos (v : JSON) : 1 ≤ jsonMeasure v := by
  cases v <;> simp [jsonMeasure]

theorem stringify_head (v : JSON) :
    ∃ c t, jsonStringify v = c :: t ∧ isWsChar c = false ∧ c ≠ ']' ∧ c ≠ rbrace := by
  cases v with
  | null => exact ⟨'n', _, rfl, by decide, by decide, by decide⟩
  | bool b =>
    cases b
    · exact ⟨_, _, rfl, by decide, by decide, by decide⟩
    · exact ⟨_, _, rfl, by decide, by decide, by decide⟩
  | num n =>
    show ∃ c t, intStringify n = c :: t ∧ _
    unfold intStringify
    by_cases hneg : n < 0
    · rw [if_pos hneg]
      exact ⟨'-', _, rfl, by decide, by decide, by decide⟩
    · rw [if_neg hneg]
      obtain ⟨hne, hdig, -⟩ := natToDigits_spec n.toNat
      obtain ⟨c, t, hct⟩ := List.exists_cons_of_ne_nil hne
      have hc : isDigitChar c = true := hdig c (by rw [hct]; exact List.mem_cons_self c t)
      obtain ⟨-, -, -, -, n5, n6⟩ := digit_head_branches c hc
      exact ⟨c, t, hct, ws_digit_false c hc, n5, n6⟩
  | str s => exact ⟨'"', _, rfl, by decide, by decide, by decide⟩
  | arr a => exact ⟨'[', _, rfl, by decide, by decide, by decide⟩
  | obj o => exact ⟨lbrace, _, rfl, by decide, by decide, by decide⟩

theorem stringifyElems_cons_append (v : JSON) (vs : JArr) (A : List Char) :
    stringifyElems (.cons v vs) ++ A
      = jsonStringify v ++ (match vs with
          | .nil => A
          | .cons _ _ => ',' :: (stringifyElems vs ++ A)) := by
  cases vs with
  | nil => simp [stringifyElems]
  | cons w ws => simp [stringifyElems]

theorem stringifyMembers_cons_append (k : List Char) (v : JSON) (ms : JObj) (A : List Char) :
    stringifyMembers (.cons k v ms) ++ A
      = '"' :: (escapeStr k ++ '"' :: ':' :: (jsonStringify v ++ (match ms with
          | .nil => A
          | .cons _ _ _ => ',' :: (stringifyMembers ms ++ A)))) := by
  cases ms with
  | nil => simp [stringifyMembers]
  | cons k2 v2 ms2 => simp [stringifyMembers]

theorem elems_head (v : JSON) (vs : JArr) (A : List Char) :
    ∃ c t, stringifyElems (.cons v vs) ++ A = c :: t ∧ isWsChar c = false ∧
      c ≠ ']' ∧ c ≠ rbrace := by
  obtain ⟨c, t0, hct, hws, h1, h2⟩ := stringify_head v
  rw [stringifyElems_cons_append, hct, List.cons_append]
  exact ⟨c, _, rfl, hws, h1, h2⟩

theorem skipWs_rbrack (R : List Char) : skipWs (']' :: R) = ']' :: R := rfl

theorem skipWs_comma (R : List Char) : skipWs (',' :: R) = ',' :: R := rfl

theorem skipWs_colon (R : List Char) : skipWs (':' :: R) = ':' :: R := rfl

theorem skipWs_quote (R : List Char) : skipWs ('"' :: R) = '"' :: R := rfl

theorem skipWs_rbrace (R : List Char) : skipWs (rbrace :: R) = rbrace :: R := rfl

theorem parse_roundtrip (fuel : Nat) :
    (∀ (v : JSON) (rest : List Char), jsonMeasure v ≤ fuel → restOk rest = true →
      parseValue fuel (jsonStringify v ++ rest) = some (v, rest)) ∧
    (∀ (vs : JArr) (rest : List Char), vs ≠ .nil → elemsMeasure vs ≤ fuel →
      parseElems fuel (stringifyElems vs ++ ']' :: rest) = some (vs, rest)) ∧
    (∀ (ms : JObj) (rest : List Char), ms ≠ .nil → membersMeasure ms ≤ fuel →
      parseMembers fuel (stringifyMembers ms ++ rbrace :: rest) = some (ms, rest)) := by
  induction fuel with
  | zero =>
    refine ⟨?_, ?_, ?_⟩
    · intro v rest hm _
      exact absurd hm (by have := jsonMeasure_pos v; omega)
    · intro vs rest hne hm
      cases vs with
      | nil => exact absurd rfl hne
      | cons v vs => simp [elemsMeasure] at hm
    · intro ms rest hne hm
      cases ms with
      | nil => exact absurd rfl hne
      | cons k v ms => simp [membersMeasure] at hm
  | succ f ih =>
    obtain ⟨ihP, ihQ, ihR⟩ := ih
    refine ⟨?_, ?_, ?_⟩
    · intro v rest hm hrest
      cases v with
      | null => rfl
      | bool b => cases b <;> rfl
      | num n =>
        show parseValue (f + 1) (intStringify n ++ rest) = some (.num n, rest)
        unfold intStringify
        by_cases hneg : n < 0
        · rw [if_pos hneg]
          obtain ⟨hne, hdig, hval⟩ := natToDigits_spec n.natAbs
          rw [List.cons_append, pv_neg, spanDigits_append _ _ hdig hrest]
          obtain ⟨c, t, hct⟩ := List.exists_cons_of_ne_nil hne
          rw [hct]
          show some (JSON.num (-(digitsToNat (c :: t) : Int)), rest) = some (.num n, rest)
          rw [← hct, hval]
          have hcast : -((n.natAbs : Nat) : Int) = n := by omega
          rw [hcast]
        · rw [if_neg hneg]
          obtain ⟨hne, hdig, hval⟩ := natToDigits_spec n.toNat
          obtain ⟨c, t, hct⟩ := List.exists_cons_of_ne_nil hne
          have hc : isDigitChar c = true := hdig c (by rw [hct]; exact List.mem_cons_self c t)
          have hdt : ∀ x ∈ t, isDigitChar x = true := by
            intro x hx
            exact hdig x (by rw [hct]; exact List.mem_cons_of_mem c hx)
          rw [hct, List.cons_append, pv_digit f c _ hc, spanDigits_append _ _ hdt hrest]
          show some (JSON.num ((digitsToNat (c :: t) : Nat) : Int), rest) = some (.num n, rest)
          rw [← hct, hval]
          have hcast : ((n.toNat : Nat) : Int) = n := by omega
          rw [hcast]
      | str s =>
        show parseValue (f + 1) (('"' :: (escapeStr s ++ ['"'])) ++ rest) = some (.str s, rest)
        rw [List.cons_append, List.append_assoc, List.singleton_append, pv_quote,
          parseStringBody_roundtrip]
      | arr a =>
        cases a with
        | nil => rfl
        | cons v vs =>
          have hmeas : elemsMeasure (.cons v vs) ≤ f := by
            simp only [jsonMeasure] at hm
            omega
          have hQ := ihQ (.cons v vs) rest (by simp) hmeas
          show parseValue (f + 1) (('[' :: (stringifyElems (.cons v vs) ++ [']'])) ++ rest)
            = some (.arr (.cons v vs), rest)
          rw [List.cons_append, List.append_assoc, List.singleton_append, pv_lbrack]
          obtain ⟨c, t, heq, hws, hnb, hnr⟩ := elems_head v vs (']' :: rest)
          rw [heq] at hQ ⊢
          rw [skipWs_cons c t hws]
          simp only [if_neg hnb, hQ]
      | obj o =>
        cases o with
        | nil => rfl
        | cons k v ms =>
          have hmeas : membersMeasure (.cons k v ms) ≤ f := by
            simp only [jsonMeasure] at hm
            omega
          have hR := ihR (.cons k v ms) rest (by simp) hmeas
          show parseValue (f + 1) ((lbrace :: (stringifyMembers (.cons k v ms) ++ [rbrace])) ++ rest)
            = some (.obj (.cons k v ms), rest)
          rw [List.cons_append, List.append_assoc, List.singleton_append, pv_lbrace]
          have hhead : ∃ c t, stringifyMembers (.cons k v ms) ++ rbrace :: rest = c :: t ∧
              isWsChar c = false ∧ c ≠ rbrace := by
            rw [stringifyMembers_cons_append]
            exact ⟨'"', _, rfl, by decide, by decide⟩
          obtain ⟨c, t, heq, hws, hnr⟩ := hhead
          rw [heq] at hR ⊢
          rw [skipWs_cons c t hws]
          simp only [if_neg hnr, hR]
    · intro vs rest hne hm
      cases vs with
      | nil => exact absurd rfl hne
      | cons v vs2 =>
        rw [pe_succ, stringifyElems_cons_append]
        cases vs2 with
        | nil =>
          have hmv : jsonMeasure v ≤ f := by
            simp only [elemsMeasure] at hm
            omega
          have hP := ihP v (']' :: rest) hmv (by rfl)
          simp [hP, skipWs_rbrack]
        | cons v2 vs3 =>
          have hmv : jsonMeasure v ≤ f := by
            simp only [elemsMeasure] at hm
            omega
          have hm2 : elemsMeasure (.cons v2 vs3) ≤ f := by
            simp only [elemsMeasure] at hm ⊢
            omega
          have hP := ihP v (',' :: (stringifyElems (.cons v2 vs3) ++ ']' :: rest)) hmv (by rfl)
          have hQ := ihQ (.cons v2 vs3) rest (by simp) hm2
          simp [hP, hQ, skipWs_comma]
    · intro ms rest hne hm
      cases ms with
      | nil => exact absurd rfl hne
      | cons k v ms2 =>
        rw [pm_succ, stringifyMembers_cons_append]
        cases ms2 with
        | nil =>
          have hmv : jsonMeasure v ≤ f := by
            simp only [membersMeasure] at hm
            omega
          have hP := ihP v (rbrace :: rest) hmv (by rfl)
          have e1 : ¬(rbrace = ',') := by decide
          simp [skipWs_quote, parseStringBody_roundtrip, skipWs_colon, hP, skipWs_rbrace, e1]
        | cons k2 v2 ms3 =>
          have hmv : jsonMeasure v ≤ f := by
            simp only [membersMeasure] at hm
            omega
          have hm2 : membersMeasure (.cons k2 v2 ms3) ≤ f := by
            simp only [membersMeasure] at hm ⊢
            omega
          have hP := ihP v (',' :: (stringifyMembers (.cons k2 v2 ms3) ++ rbrace :: rest)) hmv
            (by rfl)
          have hR := ihR (.cons k2 v2 ms3) rest (by simp) hm2
          simp [skipWs_quote, parseStringBody_roundtrip, skipWs_colon, hP, skipWs_comma, hR]

mutual
theorem measureLe_json : (v : JSON) → jsonMeasure v ≤ 2 * (jsonStringify v).length
  | .null => by simp [jsonMeasure, jsonStringify]
  | .bool b => by cases b <;> simp [jsonMeasure, jsonStringify]
  | .num n => by
    have h : intStringify n ≠ [] := by
      unfold intStringify
      split
      · simp
      · exact (natToDigits_spec n.toNat).1
    have h2 : 1 ≤ (intStringify n).length := by
      cases he : intStringify n with
      | nil => exact absurd he h
      | cons a t => simp
    simp only [jsonMeasure, jsonStringify]
    omega
  | .str s => by
    simp only [jsonMeasure, jsonStringify, List.length_cons, List.length_append,
      List.length_singleton]
    omega
  | .arr a => by
    have h := measureLe_elems a
    simp only [jsonMeasure, jsonStringify, List.length_cons, List.length_append,
      List.length_singleton]
    omega
  | .obj o => by
    have h := measureLe_members o
    simp only [jsonMeasure, jsonStringify, List.length_cons, List.length_append,
      List.length_singleton]
    omega

theorem measureLe_elems : (vs : JArr) → elemsMeasure vs ≤ 2 * (stringifyElems vs).length + 1
  | .nil => by simp [elemsMeasure, stringifyElems]
  | .cons v .nil => by
    have h := measureLe_json v
    simp only [elemsMeasure, stringifyElems]
    omega
  | .cons v (.cons v2 vs) => by
    have h := measureLe_json v
    have h2 := measureLe_elems (.cons v2 vs)
    simp only [elemsMeasure, stringifyElems, List.length_append, List.length_cons] at h2 ⊢
    omega

theorem measureLe_members : (ms : JObj) → membersMeasure ms ≤ 2 * (stringifyMembers ms).length + 1
  | .nil => by simp [membersMeasure, stringifyMembers]
  | .cons k v .nil => by
    have h := measureLe_json v
    simp only [membersMeasure, stringifyMembers, List.length_cons, List.length_append]
    omega
  | .cons k v (.cons k2 v2 ms) => by
    have h := measureLe_json v
    have h2 := measureLe_members (.cons k2 v2 ms)
    simp only [membersMeasure, stringifyMembers, List.length_cons, List.length_append] at h2 ⊢
    omega
end

/-- The whole serialized form of any JSON value parses back to that value. -/
theorem jsonParse_stringify (v : JSON) : jsonParse (jsonStringify v) = some v := by
  unfold jsonParse
  have hb : jsonMeasure v ≤ 2 * (jsonStringify v).length + 2 := by
    have := measureLe_json v
    omega
  have h := (parse_roundtrip (2 * (jsonStringify v).length + 2)).1 v [] hb rfl
  rw [List.append_nil] at h
  rw [h]
  rfl

theorem firstIdx_append_cons (p r : List Char) (c : Char) (hp : c ∉ p) :
    firstIdx? (p ++ c :: r) c = some p.length := by
  induction p with
  | nil => simp [firstIdx?]
  | cons a p ih =>
    have ha : ¬a = c := by
      intro h
      exact hp (h ▸ List.mem_cons_self a p)
    simp only [List.cons_append, firstIdx?, if_neg ha, List.append_eq,
      ih (fun hmem => hp (List.mem_cons_of_mem a hmem)), List.length_cons]

theorem lastIdx_not_mem (s : List Char) (c : Char) (h : c ∉ s) : lastIdx? s c = none := by
  induction s with
  | nil => rfl
  | cons a t ih =>
    have ha : ¬a = c := by
      intro he
      exact h (he ▸ List.mem_cons_self a t)
    simp only [lastIdx?, ih (fun hmem => h (List.mem_cons_of_mem a hmem)), if_neg ha]

theorem lastIdx_append_cons (p q : List Char) (c : Char) (hq : c ∉ q) :
    lastIdx? (p ++ c :: q) c = some p.length := by
  induction p with
  | nil => simp [lastIdx?, lastIdx_not_mem q c hq]
  | cons a p ih =>
    simp only [List.cons_append, lastIdx?, List.append_eq, ih, List.length_cons]

theorem jsSubstring_exact (p m q : List Char) (a b : Int) (ha : a = (p.length : Int))
    (hb : b = (p.length : Int) + (m.length : Int)) :
    jsSubstring (p ++ m ++ q) a b = m := by
  subst ha hb
  simp only [jsSubstring]
  have hlen : ((p ++ m ++ q).length : Int) = (p.length : Int) + m.length + q.length := by
    simp [List.length_append]
    omega
  rw [hlen]
  have h1 : ((min (max ((p.length : Int)) 0) ((p.length : Int) + m.length + q.length)).toNat)
      = p.length := by omega
  have h2 : ((min (max ((p.length : Int) + (m.length : Int)) 0)
      ((p.length : Int) + m.length + q.length)).toNat) = p.length + m.length := by omega
  rw [h1, h2]
  have h3 : min p.length (p.length + m.length) = p.length := by omega
  have h4 : max p.length (p.length + m.length) = p.length + m.length := by omega
  rw [h3, h4]
  rw [show p ++ m ++ q = (p ++ m) ++ q from by simp [List.append_assoc]]
  rw [List.take_left' (by simp [List.length_append] : (p ++ m).length = p.length + m.length)]
  exact List.drop_left p m

/-- Claim C3 (amended): the Structured Extractor recovers the embedded record
exactly when the prose before the payload contains no opening delimiter of
the expected kind and the prose after it contains no closing delimiter of
that kind (same-kind delimiters in the other positions are harmless); the
original "no same-kind imbalance" proviso is neither necessary nor
sufficient. -/
theorem extraction_round_trip_delimiter_free_prose :
    (∀ (vs : JArr) (pfx sfx : List Char), '[' ∉ pfx → ']' ∉ sfx →
      jsonExtractArray (pfx ++ jsonStringify (.arr vs) ++ sfx) = some (.arr vs)) ∧
    (∀ (ms : JObj) (pfx sfx : List Char), lbrace ∉ pfx → rbrace ∉ sfx →
      jsonExtractObject (pfx ++ jsonStringify (.obj ms) ++ sfx) = some (.obj ms)) := by
  constructor
  · intro vs pfx sfx hp hs
    unfold jsonExtractArray
    have hidx : jsIndexOf (pfx ++ jsonStringify (.arr vs) ++ sfx) '[' = (pfx.length : Int) := by
      unfold jsIndexOf
      rw [show pfx ++ jsonStringify (.arr vs) ++ sfx
          = pfx ++ '[' :: ((stringifyElems vs ++ [']']) ++ sfx) from by
        simp [jsonStringify, List.append_assoc]]
      rw [firstIdx_append_cons pfx _ '[' hp]
    have hlast : jsLastIndexOf (pfx ++ jsonStringify (.arr vs) ++ sfx) ']'
        = (((pfx ++ '[' :: stringifyElems vs).length : Nat) : Int) := by
      unfold jsLastIndexOf
      rw [show pfx ++ jsonStringify (.arr vs) ++ sfx
          = (pfx ++ '[' :: stringifyElems vs) ++ ']' :: sfx from by
        simp [jsonStringify, List.append_assoc]]
      rw [lastIdx_append_cons _ sfx ']' hs]
    rw [hidx, hlast]
    rw [jsSubstring_exact pfx (jsonStringify (.arr vs)) sfx _ _ rfl (by
      have h1 : (pfx ++ '[' :: stringifyElems vs).length
          = pfx.length + ((stringifyElems vs).length + 1) := by
        simp [List.length_append]
      have h2 : (jsonStringify (.arr vs)).length = (stringifyElems vs).length + 2 := by
        simp [jsonStringify, List.length_append]
      rw [h1, h2]
      push_cast
      omega)]
    exact jsonParse_stringify (.arr vs)
  · intro ms pfx sfx hp hs
    unfold jsonExtractObject
    have hidx : jsIndexOf (pfx ++ jsonStringify (.obj ms) ++ sfx) lbrace
        = (pfx.length : Int) := by
      unfold jsIndexOf
      rw [show pfx ++ jsonStringify (.obj ms) ++ sfx
          = pfx ++ lbrace :: ((stringifyMembers ms ++ [rbrace]) ++ sfx) from by
        simp [jsonStringify, List.append_assoc]]
      rw [firstIdx_append_cons pfx _ lbrace hp]
    have hlast : jsLastIndexOf (pfx ++ jsonStringify (.obj ms) ++ sfx) rbrace
        = (((pfx ++ lbrace :: stringifyMembers ms).length : Nat) : Int) := by
      unfold jsLastIndexOf
      rw [show pfx ++ jsonStringify (.obj ms) ++ sfx
          = (pfx ++ lbrace :: stringifyMembers ms) ++ rbrace :: sfx from by
        simp [jsonStringify, List.append_assoc]]
      rw [lastIdx_append_cons _ sfx rbrace hs]
    rw [hidx, hlast]
    rw [jsSubstring_exact pfx (jsonStringify (.obj ms)) sfx _ _ rfl (by
      have h1 : (pfx ++ lbrace :: stringifyMembers ms).length
          = pfx.length + ((stringifyMembers ms).length + 1) := by
        simp [List.length_append]
      have h2 : (jsonStringify (.obj ms)).length = (stringifyMembers ms).length + 2 := by
        simp [jsonStringify, List.length_append]
      rw [h1, h2]
      push_cast
      omega)]
    exact jsonParse_stringify (.obj ms)

theorem extraction_round_trip_delimiter_free_prose_witness :
    jsonExtractArray ("Sure: ".toList ++ jsonStringify (.arr arrTwo) ++ " done.".toList)
        = some (.arr arrTwo) ∧
      jsonExtractObject ("ok ".toList ++ jsonStringify (.obj objScore) ++ " end".toList)
        = some (.obj objScore) :=
  ⟨extraction_round_trip_delimiter_free_prose.1 arrTwo ("Sure: ".toList) (" done.".toList)
      (by decide) (by decide),
    extraction_round_trip_delimiter_free_prose.2 objScore ("ok ".toList) (" end".toList)
      (by decide) (by decide)⟩

/-- Claim C3 counterexample: prose before the payload that is perfectly
balanced in the expected delimiter kind (here a complete "[]" block, so there
is no same-kind delimiter imbalance outside the payload) still defeats the
extractor: the slice runs from the prose's first `[` to the payload's last
`]` and is not valid JSON, so the original record is not recovered. -/
theorem extraction_round_trip_balanced_prose_fails :
    delimBalanced '[' ']' balancedProse = true ∧
      delimBalanced '[' ']' [] = true ∧
      jsonExtractArray (balancedProse ++ jsonStringify arrOne ++ []) ≠ some arrOne := by
  refine ⟨by decide, by decide, ?_⟩
  intro h
  rw [show jsonExtractArray (balancedProse ++ jsonStringify arrOne ++ []) = none from rfl] at h
  exact Option.noConfusion h
